import Mathlib

/-!
Verification of the chunk manager, Security1 session crypto, error manager and
command router of the esp32 firmware, against a shallow embedding of the C
sources in `components/`.  Byte sequences are modelled as `List Nat` (each
element a byte value), machine integers as `Nat` with explicit `% 2 ^ w`
reductions exactly where the C code stores into a fixed-width field, and
fallible functions return `Except EspErr`.
-/

/-- EspErr models the `esp_err_t` codes that appear in the embedded sources. -/
inductive EspErr where
  | invalidArg
  | invalidSize
  | invalidState
  | invalidMac
  | noMem
  | timeout
  | notSupported
  | fail
  deriving DecidableEq, Repr

/-- Generic list update at an index, used to model in-place mutation of the
reassembly-context array (`contexts[i] = ...`). -/
def setAt {α : Type} : List α → Nat → α → List α
  | [], _, _ => []
  | _ :: cs, 0, v => v :: cs
  | c :: cs, j + 1, v => c :: setAt cs j v

/-- Find the first element satisfying `p`, together with its index; models the
linear scans `find_context_by_id` / `find_free_context` perform over the
context array. -/
def findCtx {α : Type} (p : α → Bool) : List α → Option (Nat × α)
  | [] => none
  | c :: cs =>
    if p c then some (0, c)
    else match findCtx p cs with
      | some (j, x) => some (j + 1, x)
      | none => none

/-- Model of `memcpy(buf + off, src, src.length)` into a byte buffer. -/
def writeAt (buf : List Nat) (off : Nat) (src : List Nat) : List Nat :=
  buf.take off ++ src ++ buf.drop (off + src.length)

/-- Concatenation of a list of byte buffers. -/
def joinL : List (List Nat) → List Nat
  | [] => []
  | l :: ls => l ++ joinL ls

/- ───────────────────────── Chunk manager (chunk_manager.c) ───────────────────────── -/

/-- Translation of `chunk_config_t` (the `header_size` field of the C struct is
unused by the implementation, which always uses `sizeof(chunk_header_t) = 7`). -/
structure ChunkConfig where
  max_chunk_size : Nat
  max_concurrent_frames : Nat
  reassembly_timeout_ms : Nat
  deriving DecidableEq, Repr

/-- Translation of the packed 7-byte `chunk_header_t`. -/
structure ChunkHeader where
  flags : Nat
  chunk_idx : Nat
  total_chunks : Nat
  frame_id : Nat
  chunk_size : Nat
  deriving DecidableEq, Repr

/-- On-wire layout of `chunk_header_t`: packed, little-endian multi-byte fields. -/
def serializeHeader (h : ChunkHeader) : List Nat :=
  [h.flags % 256, h.chunk_idx % 256, h.total_chunks % 256,
   h.frame_id % 256, h.frame_id / 256 % 256,
   h.chunk_size % 256, h.chunk_size / 256 % 256]

/-- Reading a `chunk_header_t` back from the first 7 bytes of a chunk
(`(const chunk_header_t*)chunk_data`). -/
def parseHeader (b : List Nat) : ChunkHeader :=
  { flags := b.getD 0 0
    chunk_idx := b.getD 1 0
    total_chunks := b.getD 2 0
    frame_id := b.getD 3 0 + 256 * b.getD 4 0
    chunk_size := b.getD 5 0 + 256 * b.getD 6 0 }

/-- CHUNK_FLAG values from chunk_manager.h. -/
def CHUNK_FLAG_CHUNKED : Nat := 1
def CHUNK_FLAG_FINAL : Nat := 2
def CHUNK_FLAG_MORE : Nat := 4

/-- Effective payload bytes per chunk: `max_chunk_size - sizeof(chunk_header_t)`. -/
def effectiveChunkSize (cfg : ChunkConfig) : Nat := cfg.max_chunk_size - 7

/-- Translation of `calculate_chunks_needed`.  The C result is stored into a
`uint8_t`, hence the `% 256` before the clamp to at least 1. -/
def calculate_chunks_needed (cfg : ChunkConfig) (data_size : Nat) : Nat :=
  let e := effectiveChunkSize cfg
  let chunks := ((data_size + e - 1) / e) % 256
  if chunks > 0 then chunks else 1

/-- Loop body of `chunk_manager_send`: builds the chunk for index `i` at byte
offset `offset` and recurses; `fuel` counts the remaining iterations
(`chunks_needed - i`), mirroring the bounded `for` loop. -/
def sendLoop (cfg : ChunkConfig) (fid n : Nat) (data : List Nat) :
    Nat → Nat → Nat → List (List Nat)
  | 0, _, _ => []
  | fuel + 1, i, offset =>
    let e := effectiveChunkSize cfg
    let remaining := data.length - offset
    let ps := if remaining > e then e else remaining
    let flags := if i = n - 1 then CHUNK_FLAG_CHUNKED ||| CHUNK_FLAG_FINAL
                 else CHUNK_FLAG_CHUNKED ||| CHUNK_FLAG_MORE
    (serializeHeader
       { flags := flags, chunk_idx := i, total_chunks := n,
         frame_id := fid, chunk_size := ps }
      ++ (data.drop offset).take ps)
      :: sendLoop cfg fid n data fuel (i + 1) (offset + ps)

/-- Translation of `chunk_manager_send` (the mutex, statistics and the
monotone `next_frame_id` counter are threaded out; `fid` is the frame id the
counter would assign, and allocation is modelled as always succeeding). -/
def chunk_manager_send (cfg : ChunkConfig) (fid : Nat) (data : List Nat) :
    Except EspErr (List (List Nat)) :=
  let chunks_needed := calculate_chunks_needed cfg data.length
  if chunks_needed > 8 then .error .invalidSize
  else .ok (sendLoop cfg fid chunks_needed data chunks_needed 0 0)

/-- Translation of `reassembly_context_t`. -/
structure RCtx where
  frame_id : Nat
  timestamp_ms : Nat
  chunks_received : Nat
  total_chunks : Nat
  expected_size : Nat
  current_size : Nat
  buffer : List Nat
  active : Bool
  deriving DecidableEq, Repr

/-- The all-zero context produced by `calloc` / `free_context`. -/
def blankCtx : RCtx :=
  { frame_id := 0, timestamp_ms := 0, chunks_received := 0, total_chunks := 0,
    expected_size := 0, current_size := 0, buffer := [], active := false }

/-- Translation of `reassembly_result_t`. -/
structure RResult where
  complete_frame : Option (List Nat)
  frame_size : Nat
  frame_id : Nat
  is_complete : Bool
  is_duplicate : Bool
  deriving DecidableEq, Repr

/-- Final reassembly loop of `chunk_manager_process`: concatenates per-chunk
slices of the context buffer, each of size `e` except the last one, which gets
`current - acc` where `acc` is the accumulated `actual_size`.  Returns the
assembled bytes and the final `actual_size`.  `fuel` counts remaining
iterations (`total - i`). -/
def assembleLoop (e total current : Nat) (buf : List Nat) :
    Nat → Nat → Nat → (List Nat × Nat)
  | 0, _, acc => ([], acc)
  | fuel + 1, i, acc =>
    let sz := if i = total - 1 then current - acc else e
    let rest := assembleLoop e total current buf fuel (i + 1) (acc + sz)
    ((buf.drop (i * e)).take sz ++ rest.1, rest.2)

/-- The part of `chunk_manager_process` that runs once the reassembly context
is located (or freshly created) at slot `j`: duplicate detection, the guarded
copy into the buffer, and the completion check.  Factored out of
`chunk_manager_process` below so each phase can be reasoned about once. -/
def processFound (cfg : ChunkConfig) (st : List RCtx) (j : Nat) (ctx : RCtx)
    (header : ChunkHeader) (payload : List Nat) :
    Except EspErr (List RCtx × RResult) :=
  let e := effectiveChunkSize cfg
  let payload_size := header.chunk_size
  let st1 := setAt st j ctx
  let chunk_bit := 2 ^ header.chunk_idx % 256
  if ctx.chunks_received &&& chunk_bit ≠ 0 then
    .ok (st1, { complete_frame := none, frame_size := 0,
                frame_id := header.frame_id, is_complete := false,
                is_duplicate := true })
  else
    let chunk_offset := header.chunk_idx * e
    let ctx1 :=
      if chunk_offset + payload_size ≤ ctx.expected_size then
        { ctx with
          buffer := writeAt ctx.buffer chunk_offset payload,
          chunks_received := ctx.chunks_received ||| chunk_bit,
          current_size := ctx.current_size + payload_size }
      else ctx
    let expected_mask := (2 ^ ctx1.total_chunks - 1) % 256
    if ctx1.chunks_received = expected_mask then
      let asm := assembleLoop e ctx1.total_chunks ctx1.current_size
                   ctx1.buffer ctx1.total_chunks 0 0
      .ok (setAt st1 j blankCtx,
           { complete_frame := some asm.1, frame_size := asm.2,
             frame_id := header.frame_id, is_complete := true,
             is_duplicate := false })
    else
      .ok (setAt st1 j ctx1,
           { complete_frame := none, frame_size := 0,
             frame_id := header.frame_id, is_complete := false,
             is_duplicate := false })

/-- Translation of `chunk_manager_process`.  State is the context array;
`now` is `get_timestamp_ms()`.  Allocation is modelled as succeeding and fresh
memory as zero bytes; the semaphore is threaded out. -/
def chunk_manager_process (cfg : ChunkConfig) (now : Nat) (st : List RCtx)
    (chunk : List Nat) : Except EspErr (List RCtx × RResult) :=
  if chunk.length < 7 then .error .invalidArg
  else
    let header := parseHeader chunk
    let payload := chunk.drop 7
    let payload_size := header.chunk_size
    if payload_size ≠ chunk.length - 7 then .error .invalidSize
    else if header.chunk_idx ≥ header.total_chunks then .error .invalidArg
    else
      let e := effectiveChunkSize cfg
      -- find or create the context for this frame id
      let found :=
        match findCtx (fun c => c.active && c.frame_id == header.frame_id) st with
        | some jc => some jc
        | none =>
          match findCtx (fun c => !c.active) st with
          | none => none
          | some (j, _) =>
            let fresh : RCtx :=
              { frame_id := header.frame_id, timestamp_ms := now,
                chunks_received := 0, total_chunks := header.total_chunks,
                expected_size := header.total_chunks * e, current_size := 0,
                buffer := List.replicate (header.total_chunks * e) 0,
                active := true }
            some (j, fresh)
      match found with
      | none => .error .noMem
      | some (j, ctx) => processFound cfg st j ctx header payload

/-- Feed a sequence of on-wire chunks to `chunk_manager_process`, threading the
context array through; an error leaves the state unchanged, as in the C code. -/
def feedAll (cfg : ChunkConfig) (now : Nat) (st : List RCtx) :
    List (List Nat) → List RCtx × List (Except EspErr RResult)
  | [] => (st, [])
  | c :: cs =>
    match chunk_manager_process cfg now st c with
    | .ok (st1, r) =>
      let rest := feedAll cfg now st1 cs
      (rest.1, .ok r :: rest.2)
    | .error err =>
      let rest := feedAll cfg now st cs
      (rest.1, .error err :: rest.2)

/-- The initial context array allocated by `chunk_manager_init`. -/
def initialContexts (cfg : ChunkConfig) : List RCtx :=
  List.replicate cfg.max_concurrent_frames blankCtx

/- ───────────────────────── SHA-256 and HMAC-SHA256 (model of mbedtls) ───────────────────────── -/

/-- Word size modulus for 32-bit arithmetic. -/
def w32 : Nat := 4294967296

/-- Right rotation of a 32-bit word. -/
def rotr32 (x n : Nat) : Nat := ((x >>> n) ||| (x <<< (32 - n))) % w32

/-- SHA-256 round constants. -/
def sha256K : List Nat :=
  [1116352408, 1899447441, 3049323471, 3921009573, 961987163,
   1508970993, 2453635748, 2870763221, 3624381080, 310598401,
   607225278, 1426881987, 1925078388, 2162078206, 2614888103,
   3248222580, 3835390401, 4022224774, 264347078, 604807628,
   770255983, 1249150122, 1555081692, 1996064986, 2554220882,
   2821834349, 2952996808, 3210313671, 3336571891, 3584528711,
   113926993, 338241895, 666307205, 773529912, 1294757372,
   1396182291, 1695183700, 1986661051, 2177026350, 2456956037,
   2730485921, 2820302411, 3259730800, 3345764771, 3516065817,
   3600352804, 4094571909, 275423344, 430227734, 506948616,
   659060556, 883997877, 958139571, 1322822218, 1537002063,
   1747873779, 1955562222, 2024104815, 2227730452, 2361852424,
   2428436474, 2756734187, 3204031479, 3329325298]

/-- SHA-256 initial hash state. -/
def sha256H0 : List Nat :=
  [1779033703, 3144134277, 1013904242, 2773480762,
   1359893119, 2600822924, 528734635, 1541459225]

/-- Pack a byte sequence into big-endian 32-bit words, four bytes at a time. -/
def bytesToWords : List Nat → List Nat
  | b0 :: b1 :: b2 :: b3 :: rest =>
    (b0 <<< 24 + b1 <<< 16 + b2 <<< 8 + b3) % w32 :: bytesToWords rest
  | _ => []

/-- Message-schedule extension: given the schedule so far in reverse order
(most recent word first), append `fuel` more words. -/
def sha256Extend : Nat → List Nat → List Nat
  | 0, rws => rws
  | fuel + 1, rws =>
    let w2 := rws.getD 1 0
    let w7 := rws.getD 6 0
    let w15 := rws.getD 14 0
    let w16 := rws.getD 15 0
    let s0 := rotr32 w15 7 ^^^ rotr32 w15 18 ^^^ (w15 >>> 3)
    let s1 := rotr32 w2 17 ^^^ rotr32 w2 19 ^^^ (w2 >>> 10)
    sha256Extend fuel (((w16 + s0 + w7 + s1) % w32) :: rws)

/-- Message schedule of one 64-byte block: 64 32-bit words. -/
def sha256Schedule (block : List Nat) : List Nat :=
  (sha256Extend 48 (bytesToWords block).reverse).reverse

/-- SHA-256 compression of one block into the running state (8 words). -/
def sha256Compress (h : List Nat) (block : List Nat) : List Nat :=
  let ws := sha256Schedule block
  let f := (ws.zip sha256K).foldl
    (fun (v : List Nat) wk =>
      let a := v.getD 0 0; let b := v.getD 1 0; let c := v.getD 2 0
      let d := v.getD 3 0; let e := v.getD 4 0; let g := v.getD 5 0
      let f6 := v.getD 6 0; let h7 := v.getD 7 0
      let S1 := rotr32 e 6 ^^^ rotr32 e 11 ^^^ rotr32 e 25
      let ch := (e &&& g) ^^^ ((e ^^^ (w32 - 1)) &&& f6)
      let t1 := (h7 + S1 + ch + wk.2 + wk.1) % w32
      let S0 := rotr32 a 2 ^^^ rotr32 a 13 ^^^ rotr32 a 22
      let mj := (a &&& b) ^^^ (a &&& c) ^^^ (b &&& c)
      let t2 := (S0 + mj) % w32
      [(t1 + t2) % w32, a, b, c, (d + t1) % w32, e, g, f6])
    h
  (h.zip f).map (fun p => (p.1 + p.2) % w32)

/-- Split a padded message into 64-byte blocks; `fuel` bounds the recursion. -/
def toBlocks : Nat → List Nat → List (List Nat)
  | 0, _ => []
  | _, [] => []
  | fuel + 1, l => l.take 64 :: toBlocks fuel (l.drop 64)

/-- SHA-256 padding: append 0x80, zeros, and the 64-bit big-endian bit length. -/
def sha256Pad (msg : List Nat) : List Nat :=
  let len := msg.length
  let zeros := (64 + 56 - (len + 1) % 64) % 64
  let bits := len * 8
  msg ++ [128] ++ List.replicate zeros 0 ++
    [bits / 2 ^ 56 % 256, bits / 2 ^ 48 % 256, bits / 2 ^ 40 % 256,
     bits / 2 ^ 32 % 256, bits / 2 ^ 24 % 256, bits / 2 ^ 16 % 256,
     bits / 2 ^ 8 % 256, bits % 256]

/-- SHA-256 of a byte sequence, as 32 bytes; executable model of
`mbedtls_sha256`. -/
def sha256 (msg : List Nat) : List Nat :=
  let padded := sha256Pad msg
  let final := (toBlocks (padded.length + 1) padded).foldl sha256Compress sha256H0
  joinL (final.map (fun word =>
    [word / 2 ^ 24 % 256, word / 2 ^ 16 % 256, word / 2 ^ 8 % 256, word % 256]))

/-- HMAC-SHA256; executable model of the `mbedtls_md` HMAC used by the
decryption path. -/
def hmacSha256 (key msg : List Nat) : List Nat :=
  let k0 := if key.length > 64 then sha256 key else key
  let k1 := k0 ++ List.replicate (64 - k0.length) 0
  let ipad := k1.map (fun b => b ^^^ 54)
  let opad := k1.map (fun b => b ^^^ 92)
  sha256 (opad ++ sha256 (ipad ++ msg))

/-- Bytes of a Lean string, for embedding the C string literals. -/
def strBytes (s : String) : List Nat := s.data.map Char.toNat

/- ───────────────────────── Security1 session (security1_session.c) ───────────────────────── -/

/-- Translation of `security1_session_state_t`. -/
inductive SessState where
  | idle
  | transportStarting
  | transportReady
  | handshakePending
  | handshakeComplete
  | sessionActive
  | errorState
  | stopping
  deriving DecidableEq, Repr

/-- The slice of `security1_session_context_t` that the crypto API reads. -/
structure Security1Ctx where
  state : SessState
  session_key_valid : Bool
  session_key : List Nat
  deriving DecidableEq, Repr

/-- Translation of `security1_session_is_active`. -/
def security1_session_is_active (ctx : Security1Ctx) : Bool :=
  match ctx.state with
  | .sessionActive => true
  | _ => false

/-- Translation of `security1_get_encrypted_size`. -/
def security1_get_encrypted_size (plaintext_length : Nat) : Nat :=
  16 + plaintext_length + 32

/-- Translation of `security1_get_decrypted_size`. -/
def security1_get_decrypted_size (ciphertext_length : Nat) : Nat :=
  if ciphertext_length ≤ 16 + 32 then 0
  else ciphertext_length - 16 - 32

/-- Translation of `security1_crypto_encrypt_internal`.  The C function first
requires `*ciphertext_len ≥ plaintext_len + SECURITY1_ENCRYPTION_OVERHEAD`
with the overhead defined as 64 (security1_session.h:39) even though the
output layout only occupies `16 + plaintext_len + 32` bytes; past that check
it is an explicit placeholder: it writes a random IV (here the `ivRandom`
argument, modelling `esp_fill_random`), copies the plaintext unencrypted, and
appends 32 bytes of the constant 0xAA in place of an HMAC.  `cap` is the
caller-supplied `*ciphertext_len` capacity. -/
def security1_crypto_encrypt_internal (ivRandom : List Nat) (plaintext : List Nat)
    (cap : Nat) : Except EspErr (List Nat) :=
  if cap < plaintext.length + 64 then .error .invalidSize
  else .ok (ivRandom.take 16 ++ plaintext ++ List.replicate 32 170)

/-- Translation of `security1_crypto_decrypt_internal`.  The input is split as
the code documents it: 16-byte IV, then the 32-byte MAC, then the encrypted
body; HMAC-SHA256 over IV and body is compared against the stored MAC, and only
then AES-CTR runs.  `aesCtr key iv data` abstracts `mbedtls_aes_crypt_ctr`
(an external primitive); `cap` is the caller-supplied `*plaintext_len`. -/
def security1_crypto_decrypt_internal
    (aesCtr : List Nat → List Nat → List Nat → List Nat)
    (session_key : List Nat) (ciphertext : List Nat) (cap : Nat) :
    Except EspErr (List Nat) :=
  if ciphertext.length ≤ 48 then .error .invalidSize
  else
    let iv := ciphertext.take 16
    let mac := (ciphertext.drop 16).take 32
    let encrypted_data := ciphertext.drop 48
    if cap < encrypted_data.length then .error .invalidSize
    else
      let computed_mac := hmacSha256 session_key (iv ++ encrypted_data)
      if mac ≠ computed_mac then .error .invalidMac
      else .ok (aesCtr session_key iv encrypted_data)

/-- Modelled from the spec: the decryption layout the specification describes
(split the input into IV, then body, then a trailing 32-byte mac; recompute
HMAC over IV and body and compare against the trailing mac).  Written only to
be compared with `security1_crypto_decrypt_internal`, which is translated from
the source. -/
def decryptSpecTrailingMac
    (aesCtr : List Nat → List Nat → List Nat → List Nat)
    (session_key : List Nat) (ciphertext : List Nat) (cap : Nat) :
    Except EspErr (List Nat) :=
  if ciphertext.length ≤ 48 then .error .invalidSize
  else
    let iv := ciphertext.take 16
    let body := (ciphertext.drop 16).take (ciphertext.length - 48)
    let mac := ciphertext.drop (ciphertext.length - 32)
    if cap < body.length then .error .invalidSize
    else
      let computed_mac := hmacSha256 session_key (iv ++ body)
      if mac ≠ computed_mac then .error .invalidMac
      else .ok (aesCtr session_key iv body)

/-- Translation of `security1_encrypt` (mutex and statistics threaded out;
`outCap` is `ciphertext->length`, the capacity of the output buffer). -/
def security1_encrypt (ctx : Security1Ctx) (ivRandom plaintext : List Nat)
    (outCap : Nat) : Except EspErr (List Nat) :=
  if plaintext.length = 0 then .error .invalidArg
  else if ¬(security1_session_is_active ctx && ctx.session_key_valid) then
    .error .invalidState
  else if outCap < security1_get_encrypted_size plaintext.length then
    .error .invalidSize
  else
    security1_crypto_encrypt_internal ivRandom plaintext
      (security1_get_encrypted_size plaintext.length)

/-- Translation of `security1_decrypt` (mutex and statistics threaded out;
`outCap` is `plaintext->length`).  Note the state machine is not consulted:
only `session_key_valid` gates decryption. -/
def security1_decrypt (ctx : Security1Ctx)
    (aesCtr : List Nat → List Nat → List Nat → List Nat)
    (ciphertext : List Nat) (outCap : Nat) : Except EspErr (List Nat) :=
  if ciphertext.length = 0 then .error .invalidArg
  else if ¬ctx.session_key_valid then .error .invalidState
  else if outCap < security1_get_decrypted_size ciphertext.length then
    .error .invalidSize
  else
    security1_crypto_decrypt_internal aesCtr ctx.session_key ciphertext
      (security1_get_decrypted_size ciphertext.length)

/-- Translation of `security1_validate_pop_format`: 6..64 characters, each
alphanumeric, dash or underscore. -/
def security1_validate_pop_format (pop : List Nat) : Bool :=
  if pop.length < 6 || pop.length > 64 then false
  else pop.all (fun c =>
    (48 ≤ c && c ≤ 57) || (65 ≤ c && c ≤ 90) || (97 ≤ c && c ≤ 122) ||
    c = 45 || c = 95)

/-- Byte-wise XOR of two 32-byte values. -/
def xorBytes (a b : List Nat) : List Nat := a.zipWith (· ^^^ ·) b

/-- Translation of `security1_derive_session_key_authentic`:
`session_key = curve25519_result XOR SHA256(PoP)`. -/
def security1_derive_session_key_authentic (curve25519_result pop : List Nat) :
    List Nat :=
  xorBytes curve25519_result (sha256 pop)

/-- The session key the SESSION_ESTABLISH branch of
`security1_process_handshake_message` installs: the code passes the hardcoded
string literal "test_pop_12345" to the derivation, ignoring the
`configuredPop` stored by `security1_session_start`. -/
def sessionEstablishDerivedKey (configuredPop curve25519_result : List Nat) :
    List Nat :=
  security1_derive_session_key_authentic curve25519_result
    (strBytes "test_pop_12345")

/- ───────────────────────── Error manager (error_manager.c) ───────────────────────── -/

/-- Severity levels of `error_severity_t`: INFO=0, WARNING=1, ERROR=2,
CRITICAL=3, FATAL=4. -/
def ERROR_SEVERITY_CRITICAL : Nat := 3

/-- Category codes of `error_category_t` (NONE=0 .. RECOVERY=13). -/
def ERROR_CATEGORY_CONNECTION : Nat := 1
def ERROR_CATEGORY_COMMUNICATION : Nat := 2
def ERROR_CATEGORY_PROTOCOL : Nat := 3
def ERROR_CATEGORY_RESOURCE : Nat := 4
def ERROR_CATEGORY_MEMORY : Nat := 5
def ERROR_CATEGORY_QUEUE : Nat := 6
def ERROR_CATEGORY_PROCESSING : Nat := 7
def ERROR_CATEGORY_VALIDATION : Nat := 8
def ERROR_CATEGORY_TIMEOUT : Nat := 9
def ERROR_CATEGORY_HARDWARE : Nat := 10
def ERROR_CATEGORY_SYSTEM : Nat := 11
def ERROR_CATEGORY_CONFIGURATION : Nat := 12

/-- Strategy codes of `error_recovery_strategy_t`: NONE=0, RETRY=1,
RESET_STATE=2, RESTART_COMPONENT=3, RESTART_SERVICE=4, SYSTEM_RESTART=5,
CUSTOM=6. -/
def ERROR_RECOVERY_SYSTEM_RESTART : Nat := 5

/-- Translation of `component_recovery_config_t`. -/
structure RecoveryConfig where
  max_consecutive_errors : Nat
  recovery_cooldown_ms : Nat
  retry_delay_ms : Nat
  auto_recovery_enabled : Bool
  escalate_on_failure : Bool
  deriving DecidableEq, Repr

/-- Translation of `component_registration_t`.  The component's recovery
callback is external code; it is modelled by presence plus the fixed outcome it
returns (`none` = no callback registered, mirroring `recovery_callback ==
NULL`). -/
structure ComponentReg where
  registered : Bool
  recovery_config : RecoveryConfig
  recovery_callback : Option Bool
  consecutive_errors : Nat
  last_recovery_timestamp_ms : Nat
  deriving DecidableEq, Repr

/-- The `default_recovery_config` constant. -/
def default_recovery_config : RecoveryConfig :=
  { max_consecutive_errors := 5, recovery_cooldown_ms := 10000,
    retry_delay_ms := 1000, auto_recovery_enabled := true,
    escalate_on_failure := true }

/-- Unsigned 32-bit subtraction `a - b`, as the C code computes elapsed times. -/
def sub32 (a b : Nat) : Nat := (a % w32 + w32 - b % w32) % w32

/-- Translation of `get_default_recovery_strategy`. -/
def get_default_recovery_strategy (category severity : Nat) : Nat :=
  if severity ≥ ERROR_SEVERITY_CRITICAL then
    if category = ERROR_CATEGORY_CONNECTION ∨ category = ERROR_CATEGORY_COMMUNICATION then 3
    else if category = ERROR_CATEGORY_MEMORY ∨ category = ERROR_CATEGORY_RESOURCE then 2
    else if category = ERROR_CATEGORY_HARDWARE ∨ category = ERROR_CATEGORY_SYSTEM then 5
    else 3
  else
    if category = ERROR_CATEGORY_CONNECTION ∨ category = ERROR_CATEGORY_COMMUNICATION ∨
       category = ERROR_CATEGORY_TIMEOUT then 1
    else if category = ERROR_CATEGORY_MEMORY ∨ category = ERROR_CATEGORY_RESOURCE ∨
       category = ERROR_CATEGORY_QUEUE then 1
    else if category = ERROR_CATEGORY_PROTOCOL ∨ category = ERROR_CATEGORY_VALIDATION then 2
    else if category = ERROR_CATEGORY_CONFIGURATION then 0
    else 1

/-- Translation of `should_attempt_recovery` (the `component < MAX` range check
is a precondition of the embedding). -/
def should_attempt_recovery (reg : ComponentReg) (severity now : Nat) : Bool :=
  if !reg.registered || !reg.recovery_config.auto_recovery_enabled then false
  else if severity ≥ ERROR_SEVERITY_CRITICAL then true
  else if reg.consecutive_errors ≥ reg.recovery_config.max_consecutive_errors then false
  else if sub32 now reg.last_recovery_timestamp_ms <
            reg.recovery_config.recovery_cooldown_ms then false
  else true

/-- Translation of `execute_recovery`, tracking its effect on the component
registration: it stamps `last_recovery_timestamp_ms` on entry, resets
`consecutive_errors` on success, and escalates to `strategy + 1` (stopping
before SYSTEM_RESTART) on failure when configured.  Returns the updated
registration and whether recovery succeeded; `fuel` bounds the escalation
recursion (the C recursion strictly increases `strategy`, so 6 suffices). -/
def execute_recovery (now : Nat) (reg : ComponentReg) (strategy : Nat) :
    Nat → ComponentReg × Bool
  | 0 => ({ reg with last_recovery_timestamp_ms := now }, false)
  | fuel + 1 =>
    let reg1 := { reg with last_recovery_timestamp_ms := now }
    let customOk := strategy = 6 && reg.recovery_callback.getD false
    if customOk then
      ({ reg1 with consecutive_errors := 0 }, true)
    else
      let result :=
        if strategy = 1 then true
        else if strategy = 2 ∨ strategy = 3 ∨ strategy = 4 then
          reg.recovery_callback.getD false
        else false
      if result then ({ reg1 with consecutive_errors := 0 }, true)
      else if reg.recovery_config.escalate_on_failure ∧
              strategy ≠ ERROR_RECOVERY_SYSTEM_RESTART ∧
              strategy + 1 < ERROR_RECOVERY_SYSTEM_RESTART then
        execute_recovery now reg1 (strategy + 1) fuel
      else (reg1, false)

/-- Translation of the recovery-relevant effect of `error_manager_report` on
one component: the consecutive-error counter is incremented first, then
`should_attempt_recovery` is consulted, and if it agrees the default strategy
for (category, severity) is executed.  Returns the updated registration and
whether recovery was attempted. -/
def error_manager_report_step (now : Nat) (reg : ComponentReg)
    (category severity : Nat) : ComponentReg × Bool :=
  let reg1 := { reg with consecutive_errors := reg.consecutive_errors + 1 }
  if should_attempt_recovery reg1 severity now then
    ((execute_recovery now reg1 (get_default_recovery_strategy category severity) 6).1,
     true)
  else (reg1, false)

/-- A sequence of reports at the given times, all with one category/severity;
models consecutive calls to `error_manager_report` for one component. -/
def reportMany (category severity : Nat) (reg : ComponentReg) :
    List Nat → ComponentReg
  | [] => reg
  | t :: ts => reportMany category severity
      (error_manager_report_step t reg category severity).1 ts

/- ───────────────────────── Command router (cmd_proc_task.c) ───────────────────────── -/

/-- Translation of `origin_t`. -/
inductive Origin where
  | ble
  | mqtt
  | usb
  deriving DecidableEq, Repr

/-- Translation of `cmd_frame_t` (payload buffer plus its length collapse into
one byte list). -/
structure CmdFrame where
  id : Nat
  op : String
  payload : List Nat
  origin : Origin
  deriving DecidableEq, Repr

/-- Translation of `resp_frame_t`. -/
structure RespFrame where
  id : Nat
  status : Int
  payload : List Nat
  origin : Origin
  is_final : Bool
  deriving DecidableEq, Repr

/-- Translation of `handle` in cmd_proc_task.c.  The three service handlers
are external components (schedule, wifi); they are abstracted as arguments:
`svcSyncSchedule` and `svcWifiConfigure` return a status for a payload, and
`svcWifiScan` returns a status together with the payload it allocates. -/
def cmd_proc_handle (svcSyncSchedule svcWifiConfigure : List Nat → Int)
    (svcWifiScan : Int × List Nat) (cmd : CmdFrame) : RespFrame :=
  if cmd.op = "syncSchedule" then
    { id := cmd.id, status := svcSyncSchedule cmd.payload, payload := [],
      origin := cmd.origin, is_final := true }
  else if cmd.op = "wifiScan" then
    { id := cmd.id, status := svcWifiScan.1, payload := svcWifiScan.2,
      origin := cmd.origin, is_final := true }
  else if cmd.op = "wifiConfigure" then
    { id := cmd.id, status := svcWifiConfigure cmd.payload, payload := [],
      origin := cmd.origin, is_final := true }
  else
    { id := cmd.id, status := -1, payload := [], origin := cmd.origin,
      is_final := true }

/-- Translation of one iteration of the command-processor `task` loop: handle
the dequeued command and append the response to the queue selected by its
origin (BLE or MQTT); an unknown origin drops the response.  Queues are
modelled as the lists of frames they hold. -/
def cmd_proc_task_step (svcSyncSchedule svcWifiConfigure : List Nat → Int)
    (svcWifiScan : Int × List Nat) (queues : List RespFrame × List RespFrame)
    (cmd : CmdFrame) : List RespFrame × List RespFrame :=
  let resp := cmd_proc_handle svcSyncSchedule svcWifiConfigure svcWifiScan cmd
  match resp.origin with
  | .ble => (queues.1 ++ [resp], queues.2)
  | .mqtt => (queues.1, queues.2 ++ [resp])
  | .usb => queues

/- ───────────────────────── Concrete fixtures used by the theorems ───────────────────────── -/

/-- The BLE default configuration from the spec scenarios: MTU 23, so 16
effective payload bytes per chunk. -/
def cfg23 : ChunkConfig := { max_chunk_size := 23, max_concurrent_frames := 4,
                             reassembly_timeout_ms := 30000 }

/-- The smallest configuration `chunk_manager_init` accepts: one effective
payload byte per chunk. -/
def cfg8 : ChunkConfig := { max_chunk_size := 8, max_concurrent_frames := 4,
                            reassembly_timeout_ms := 30000 }

/-- A concrete stand-in for the external `mbedtls_aes_crypt_ctr` primitive,
used to instantiate theorems at concrete inputs. -/
def aesStub (key iv data : List Nat) : List Nat := data

/-- An all-zero 32-byte session key. -/
def key0 : List Nat := List.replicate 32 0

/-- An all-zero 16-byte IV. -/
def iv0 : List Nat := List.replicate 16 0

/-- HMAC-SHA256 of `iv0 ++ [1,2,3]` under `key0` (the reference value of the
external primitive, validated by `hmacSha256` below). -/
def macGood : List Nat :=
  [205, 249, 88, 106, 112, 232, 155, 73, 255, 17, 87, 93, 181, 15, 26, 158,
   65, 59, 255, 98, 154, 92, 149, 92, 67, 73, 171, 33, 219, 211, 153, 67]

/-- A ciphertext that is valid for the code's decrypt layout (IV, then MAC,
then body). -/
def c3Bytes : List Nat := iv0 ++ macGood ++ [1, 2, 3]

/-- A fresh component registration with the given consecutive-error limit and
cooldown, no recovery callback, auto-recovery on. -/
def regFresh (k cooldown : Nat) : ComponentReg :=
  { registered := true,
    recovery_config :=
      { max_consecutive_errors := k, recovery_cooldown_ms := cooldown,
        retry_delay_ms := 1000, auto_recovery_enabled := true,
        escalate_on_failure := true },
    recovery_callback := none, consecutive_errors := 0,
    last_recovery_timestamp_ms := 0 }

/-- A concrete reassembly context: frame 5, two chunks expected, chunk 0
already received. -/
def ctxA : RCtx :=
  { frame_id := 5, timestamp_ms := 0, chunks_received := 1, total_chunks := 2,
    expected_size := 32, current_size := 16,
    buffer := List.replicate 32 0, active := true }

/-- A context array holding `ctxA` in its first slot. -/
def stA : List RCtx := [ctxA, blankCtx, blankCtx, blankCtx]

/-- A re-send of chunk 0 of frame 5 (already received in `ctxA`). -/
def chunkDupA : List Nat :=
  serializeHeader { flags := 5, chunk_idx := 0, total_chunks := 2,
                    frame_id := 5, chunk_size := 16 } ++ List.replicate 16 9

/-- A chunk of frame 5 declaring 8 total chunks and index 7: its byte range
`7*16 .. 7*16+16` lies beyond `ctxA`'s 32-byte buffer. -/
def chunkOverA : List Nat :=
  serializeHeader { flags := 5, chunk_idx := 7, total_chunks := 8,
                    frame_id := 5, chunk_size := 16 } ++ List.replicate 16 9

/-- A 60-byte frame used as the concrete round-trip input. -/
def data60 : List Nat := List.range 60

/- ───────────────────────── Vocabulary for the chunk round-trip proof ───────────────────────── -/

/-- The payload size of chunk `i` when a frame of `s` bytes is cut into
`e`-byte pieces: `e` for every piece except a possibly shorter final one. -/
def pieceSize (e s i : Nat) : Nat := min (s - i * e) e

/-- The chunk `chunk_manager_send` emits for index `i` of `n` when sending
`data` under `cfg` with frame id `fid` (header plus payload slice). -/
def mkChunkC (cfg : ChunkConfig) (fid n : Nat) (data : List Nat) (i : Nat) :
    List Nat :=
  let e := effectiveChunkSize cfg
  serializeHeader
    { flags := if i = n - 1 then CHUNK_FLAG_CHUNKED ||| CHUNK_FLAG_FINAL
               else CHUNK_FLAG_CHUNKED ||| CHUNK_FLAG_MORE,
      chunk_idx := i, total_chunks := n, frame_id := fid,
      chunk_size := pieceSize e data.length i }
    ++ (data.drop (i * e)).take (pieceSize e data.length i)

/-- The bitmap with exactly the bits of `l` set. -/
def chunkMask : List Nat → Nat
  | [] => 0
  | i :: is => 2 ^ i ||| chunkMask is

/-- Accumulated payload bytes of the chunks whose bits are set in `mask`. -/
def sizeSum (e s n mask : Nat) : Nat :=
  ∑ i ∈ Finset.range n, if mask.testBit i then pieceSize e s i else 0

/-- Every chunk index below `n` occurs in `l`. -/
def covers (n : Nat) (l : List Nat) : Prop := ∀ i, i < n → i ∈ l

/-- Invariant satisfied by the reassembly context of frame `fid` after exactly
the chunks recorded in `mask` have been accepted: the header-derived fields
are fixed, the bitmap is `mask`, `current_size` accumulates the accepted
payloads, and each accepted slice of the buffer holds the corresponding slice
of the original data. -/
def CtxInv (cfg : ChunkConfig) (fid n : Nat) (data : List Nat) (mask : Nat)
    (c : RCtx) : Prop :=
  let e := effectiveChunkSize cfg
  c.active = true ∧ c.frame_id = fid ∧ c.total_chunks = n ∧
  c.expected_size = n * e ∧ c.buffer.length = n * e ∧
  c.chunks_received = mask ∧ mask < 2 ^ n ∧
  c.current_size = sizeSum e data.length n mask ∧
  ∀ i, i < n → mask.testBit i = true →
    (c.buffer.drop (i * e)).take (pieceSize e data.length i) =
    (data.drop (i * e)).take (pieceSize e data.length i)

/- ───────────────────────── Theorems ───────────────────────── -/

set_option maxRecDepth 40000

/-- C1 (counterexample): for input size 144 with `max_chunk_size = 23`
(effective 16), `ceil(144/16) = 9` chunks would be needed; `chunk_manager_send`
returns INVALID_SIZE and produces no chunks at all, so it does not produce
`ceil(s/effective)` chunks whose payloads concatenate to the input, contrary
to the claim's unrestricted quantification over all sizes `s > 0`. -/
theorem c1_counterexample :
    (List.replicate 144 (7 : Nat)).length = 144 ∧
    (144 + effectiveChunkSize cfg23 - 1) / effectiveChunkSize cfg23 = 9 ∧
    chunk_manager_send cfg23 1 (List.replicate 144 7) = .error .invalidSize := by
  refine ⟨List.length_replicate 144 7,
          by norm_num [effectiveChunkSize, cfg23], rfl⟩

/-- C2: refuted.  `security1_encrypt` sizes the internal capacity as
`security1_get_encrypted_size` = `16 + len + 32`, but
`security1_crypto_encrypt_internal` demands `len + 64`
(SECURITY1_ENCRYPTION_OVERHEAD), so for every nonempty plaintext, in an
active session with a valid key and whatever the output buffer capacity, the
public encrypt fails with INVALID_SIZE and produces no ciphertext — so no
plaintext satisfies `decrypt (encrypt P) = P`.  Moreover the internal
routine, given the larger capacity no caller supplies, is an explicit
placeholder: it emits the IV, the plaintext verbatim (no AES-CTR), and 32
constant 0xAA bytes in place of an HMAC, and its output fails
`security1_crypto_decrypt_internal`'s HMAC verification with INVALID_MAC. -/
theorem c2_placeholder_encrypt (ctx : Security1Ctx)
    (ivRandom pt : List Nat) (outCap : Nat) (hne : pt ≠ [])
    (hact : security1_session_is_active ctx = true)
    (hkey : ctx.session_key_valid = true) :
    security1_encrypt ctx ivRandom pt outCap = .error .invalidSize ∧
    security1_crypto_encrypt_internal iv0 [1, 2, 3] 67 =
      .ok (iv0 ++ [1, 2, 3] ++ List.replicate 32 170) ∧
    security1_crypto_decrypt_internal aesStub key0
      (iv0 ++ [1, 2, 3] ++ List.replicate 32 170) 3 = .error .invalidMac := by
  refine ⟨?_, rfl, rfl⟩
  unfold security1_encrypt
  rw [if_neg (by simpa using hne)]
  rw [if_neg (by simp [hact, hkey])]
  by_cases hcap : outCap < security1_get_encrypted_size pt.length
  · rw [if_pos hcap]
  · rw [if_neg hcap]
    unfold security1_crypto_encrypt_internal
    rw [if_pos (by unfold security1_get_encrypted_size; omega)]

/-- C2 witness: with an active session, a valid key and an output buffer of
exactly the advertised required size (51 bytes for a 3-byte plaintext), the
public encrypt fails with INVALID_SIZE. -/
theorem c2_placeholder_encrypt_witness :
    ([1, 2, 3] : List Nat) ≠ [] ∧
    security1_session_is_active
      { state := .sessionActive, session_key_valid := true,
        session_key := key0 } = true ∧
    security1_encrypt
      { state := .sessionActive, session_key_valid := true,
        session_key := key0 } iv0 [1, 2, 3] 51 = .error .invalidSize :=
  ⟨by decide, rfl,
   (c2_placeholder_encrypt
     { state := .sessionActive, session_key_valid := true,
       session_key := key0 } iv0 [1, 2, 3] 51 (by decide) rfl rfl).1⟩

/-- C4: the code evaluated at a concrete failing input.  With the valid PoP
"my_secret_pop" configured, the SESSION_ESTABLISH handler still derives the
session key from the hardcoded literal "test_pop_12345", so the derived key is
not `curve25519_result XOR SHA256(configured PoP)`. -/
theorem c4_hardcoded_pop :
    security1_validate_pop_format (strBytes "my_secret_pop") = true ∧
    sessionEstablishDerivedKey (strBytes "my_secret_pop") key0 =
      xorBytes key0 (sha256 (strBytes "test_pop_12345")) ∧
    sessionEstablishDerivedKey (strBytes "my_secret_pop") key0 ≠
      xorBytes key0 (sha256 (strBytes "my_secret_pop")) :=
  ⟨rfl, rfl, by decide⟩

/-- C5: the code evaluated at a concrete failing input.  For 256 input bytes
at `max_chunk_size = 8` (one effective payload byte per chunk) the true chunk
count is `ceil(256/1) = 256 > 8`, so the claim requires INVALID_SIZE; but
`calculate_chunks_needed` stores the count in a `uint8_t`, 256 wraps to 0 and
is clamped to 1, and `chunk_manager_send` succeeds with a single one-byte
chunk, silently dropping the remaining 255 bytes. -/
theorem c5_uint8_truncation :
    (List.replicate 256 (9 : Nat)).length = 256 ∧
    (256 + effectiveChunkSize cfg8 - 1) / effectiveChunkSize cfg8 = 256 ∧
    calculate_chunks_needed cfg8 256 = 1 ∧
    chunk_manager_send cfg8 1 (List.replicate 256 9) =
      .ok [serializeHeader
            { flags := 3, chunk_idx := 0, total_chunks := 1, frame_id := 1,
              chunk_size := 1 } ++ [9]] := by
  refine ⟨List.length_replicate 256 9,
          by norm_num [effectiveChunkSize, cfg8],
          by norm_num [calculate_chunks_needed, effectiveChunkSize, cfg8], rfl⟩

/-- Helper: writing back into the slot an element was found in leaves the
array unchanged. -/
theorem setAt_findCtx_self {α : Type} (p : α → Bool) :
    ∀ (l : List α) (j : Nat) (x : α),
      findCtx p l = some (j, x) → setAt l j x = l := by
  intro l
  induction l with
  | nil => intro j x h; simp [findCtx] at h
  | cons c cs ih =>
    intro j x h
    rw [findCtx] at h
    by_cases hp : p c
    · rw [if_pos hp] at h
      cases h
      rfl
    · rw [if_neg hp] at h
      cases hf : findCtx p cs with
      | none => rw [hf] at h; cases h
      | some jx =>
        rw [hf] at h
        cases h
        have := ih jx.1 jx.2 (by rw [hf])
        simpa [setAt] using this

/-- Helper: overwriting the same slot twice keeps only the last write. -/
theorem setAt_setAt {α : Type} :
    ∀ (l : List α) (j : Nat) (a b : α), setAt (setAt l j a) j b = setAt l j b := by
  intro l
  induction l with
  | nil => intro j a b; rfl
  | cons c cs ih =>
    intro j a b
    cases j with
    | zero => rfl
    | succ k => simp [setAt, ih]

/-- C7: feeding a chunk whose `chunk_idx` bit is already set in the located
context's bitmap returns success with `is_duplicate = true` and leaves the
context array — bitmap, current_size and buffer included — unchanged. -/
theorem c7_duplicate_chunk (cfg : ChunkConfig) (now : Nat) (st : List RCtx)
    (chunk : List Nat) (j : Nat) (ctx : RCtx)
    (h7 : 7 ≤ chunk.length)
    (hsz : (parseHeader chunk).chunk_size = chunk.length - 7)
    (hidx : (parseHeader chunk).chunk_idx < (parseHeader chunk).total_chunks)
    (hfind : findCtx (fun c => c.active && c.frame_id == (parseHeader chunk).frame_id) st
             = some (j, ctx))
    (hdup : ctx.chunks_received &&& 2 ^ (parseHeader chunk).chunk_idx % 256 ≠ 0) :
    chunk_manager_process cfg now st chunk =
      .ok (st, { complete_frame := none, frame_size := 0,
                 frame_id := (parseHeader chunk).frame_id,
                 is_complete := false, is_duplicate := true }) := by
  unfold chunk_manager_process
  rw [if_neg (by omega)]
  rw [if_neg (not_not_intro hsz)]
  rw [if_neg (Nat.not_le.mpr hidx)]
  simp only [hfind]
  unfold processFound
  rw [if_pos hdup]
  rw [setAt_findCtx_self _ _ _ _ hfind]

/-- C7 witness: chunk 0 of frame 5 is already recorded in `ctxA`; re-feeding
it is reported as a duplicate and mutates nothing. -/
theorem c7_duplicate_chunk_witness :
    chunk_manager_process cfg23 0 stA chunkDupA =
      .ok (stA, { complete_frame := none, frame_size := 0, frame_id := 5,
                  is_complete := false, is_duplicate := true }) := by
  have h := c7_duplicate_chunk cfg23 0 stA chunkDupA 0 ctxA
    (by decide) (by decide) (by decide) (by decide) (by decide)
  simpa using h

/-- C10: a non-duplicate chunk whose byte range `chunk_idx * effective ..
chunk_idx * effective + chunk_size` would exceed the located context's
`expected_size` is silently ignored: no byte is written, its bitmap bit stays
clear, `current_size` stays put, and the call still returns ESP_OK with
neither `is_complete` nor `is_duplicate` set. -/
theorem c10_oversize_chunk_ignored (cfg : ChunkConfig) (now : Nat)
    (st : List RCtx) (chunk : List Nat) (j : Nat) (ctx : RCtx)
    (h7 : 7 ≤ chunk.length)
    (hsz : (parseHeader chunk).chunk_size = chunk.length - 7)
    (hidx : (parseHeader chunk).chunk_idx < (parseHeader chunk).total_chunks)
    (hfind : findCtx (fun c => c.active && c.frame_id == (parseHeader chunk).frame_id) st
             = some (j, ctx))
    (hnodup : ctx.chunks_received &&& 2 ^ (parseHeader chunk).chunk_idx % 256 = 0)
    (hover : ctx.expected_size <
             (parseHeader chunk).chunk_idx * effectiveChunkSize cfg +
               (parseHeader chunk).chunk_size)
    (hmask : ctx.chunks_received ≠ (2 ^ ctx.total_chunks - 1) % 256) :
    chunk_manager_process cfg now st chunk =
      .ok (st, { complete_frame := none, frame_size := 0,
                 frame_id := (parseHeader chunk).frame_id,
                 is_complete := false, is_duplicate := false }) := by
  unfold chunk_manager_process
  rw [if_neg (by omega)]
  rw [if_neg (not_not_intro hsz)]
  rw [if_neg (Nat.not_le.mpr hidx)]
  simp only [hfind]
  unfold processFound
  rw [if_neg (not_not_intro hnodup)]
  simp only [if_neg (Nat.not_le.mpr hover)]
  rw [if_neg hmask]
  rw [setAt_setAt, setAt_findCtx_self _ _ _ _ hfind]

/-- C10 witness: a chunk of frame 5 claiming index 7 of 8 (byte range 112..128)
against `ctxA`'s 32-byte buffer is ignored and the call succeeds. -/
theorem c10_oversize_chunk_ignored_witness :
    chunk_manager_process cfg23 0 stA chunkOverA =
      .ok (stA, { complete_frame := none, frame_size := 0, frame_id := 5,
                  is_complete := false, is_duplicate := false }) := by
  have h := c10_oversize_chunk_ignored cfg23 0 stA chunkOverA 0 ctxA
    (by decide) (by decide) (by decide) (by decide) (by decide) (by decide) (by decide)
  simpa using h

/-- C8: a dequeued command whose op string matches no registered handler
produces a response with the same id and origin, status -1, is_final true and
an empty payload, and the task loop enqueues exactly that response to the
response queue matching the command's origin. -/
theorem c8_unknown_op (svcSync svcConf : List Nat → Int)
    (svcScan : Int × List Nat) (cmd : CmdFrame) (qb qm : List RespFrame)
    (h1 : cmd.op ≠ "syncSchedule") (h2 : cmd.op ≠ "wifiScan")
    (h3 : cmd.op ≠ "wifiConfigure") :
    cmd_proc_handle svcSync svcConf svcScan cmd =
      { id := cmd.id, status := -1, payload := [], origin := cmd.origin,
        is_final := true } ∧
    (cmd.origin = .ble →
      cmd_proc_task_step svcSync svcConf svcScan (qb, qm) cmd =
        (qb ++ [{ id := cmd.id, status := -1, payload := [], origin := .ble,
                  is_final := true }], qm)) ∧
    (cmd.origin = .mqtt →
      cmd_proc_task_step svcSync svcConf svcScan (qb, qm) cmd =
        (qb, qm ++ [{ id := cmd.id, status := -1, payload := [], origin := .mqtt,
                      is_final := true }])) := by
  have hh : cmd_proc_handle svcSync svcConf svcScan cmd =
      { id := cmd.id, status := -1, payload := [], origin := cmd.origin,
        is_final := true } := by
    unfold cmd_proc_handle
    rw [if_neg h1, if_neg h2, if_neg h3]
  refine ⟨hh, ?_, ?_⟩
  · intro hb
    unfold cmd_proc_task_step
    rw [hh, hb]
  · intro hm
    unfold cmd_proc_task_step
    rw [hh, hm]

/-- C8 witness: the spec's scenario 6, op "does-not-exist" with id 7 from BLE. -/
theorem c8_unknown_op_witness :
    cmd_proc_task_step (fun _ => 0) (fun _ => 0) (0, [])
      ([], []) { id := 7, op := "does-not-exist", payload := [], origin := .ble } =
      ([{ id := 7, status := -1, payload := [], origin := .ble,
          is_final := true }], []) := by
  have h := c8_unknown_op (fun _ => 0) (fun _ => 0) (0, [])
    { id := 7, op := "does-not-exist", payload := [], origin := .ble } [] []
    (by decide) (by decide) (by decide)
  simpa using h.2.1 rfl

/-- C9: `security1_encrypt` (on a well-formed call) fails with INVALID_STATE
whenever the session is not in SESSION_ACTIVE or the session key is invalid,
whereas `security1_decrypt` consults only the key flag: it fails with
INVALID_STATE when the key is invalid and never yields INVALID_STATE when the
key is valid, whatever the session state — so between key derivation and
SESSION_ACTIVE decryption is permitted while encryption is not. -/
theorem c9_encrypt_decrypt_gating (ctx : Security1Ctx) :
    (∀ (ivR pt : List Nat) (cap : Nat), pt ≠ [] →
      ¬(security1_session_is_active ctx = true ∧ ctx.session_key_valid = true) →
      security1_encrypt ctx ivR pt cap = .error .invalidState) ∧
    (∀ (aes : List Nat → List Nat → List Nat → List Nat)
       (ct : List Nat) (cap : Nat), ct ≠ [] →
      (ctx.session_key_valid = false →
        security1_decrypt ctx aes ct cap = .error .invalidState) ∧
      (ctx.session_key_valid = true →
        security1_decrypt ctx aes ct cap ≠ .error .invalidState)) := by
  constructor
  · intro ivR pt cap hpt hgate
    unfold security1_encrypt
    rw [if_neg (by simpa using hpt)]
    exact if_pos (by simp only [Bool.and_eq_true]; exact fun h => hgate h)
  · intro aes ct cap hct
    constructor
    · intro hv
      unfold security1_decrypt
      rw [if_neg (by simpa using hct)]
      rw [if_pos (by simp [hv])]
    · intro hv
      unfold security1_decrypt
      rw [if_neg (by simpa using hct)]
      rw [if_neg (by simp [hv])]
      by_cases hcap : cap < security1_get_decrypted_size ct.length
      · rw [if_pos hcap]; intro h; cases h
      · rw [if_neg hcap]
        unfold security1_crypto_decrypt_internal
        by_cases hl : ct.length ≤ 48
        · rw [if_pos hl]; intro h; cases h
        · rw [if_neg hl]
          by_cases hc2 : security1_get_decrypted_size ct.length < (ct.drop 48).length
          · rw [if_pos hc2]; intro h; cases h
          · rw [if_neg hc2]
            by_cases hm : (ct.drop 16).take 32 ≠
                hmacSha256 ctx.session_key (ct.take 16 ++ ct.drop 48)
            · rw [if_pos hm]; intro h; cases h
            · rw [if_neg hm]; intro h; cases h

/-- C9 witness: with a valid key in state HANDSHAKE_PENDING, encryption is
refused with INVALID_STATE while decryption proceeds past the state gate (it
does not return INVALID_STATE). -/
theorem c9_encrypt_decrypt_gating_witness :
    security1_encrypt
      { state := .handshakePending, session_key_valid := true,
        session_key := key0 } iv0 [1, 2, 3] 100 = .error .invalidState ∧
    security1_decrypt
      { state := .handshakePending, session_key_valid := true,
        session_key := key0 } aesStub (List.replicate 49 0) 100 ≠
      .error .invalidState := by
  have h := c9_encrypt_decrypt_gating
    { state := .handshakePending, session_key_valid := true, session_key := key0 }
  exact ⟨h.1 iv0 [1, 2, 3] 100 (by decide) (by decide),
         (h.2 aesStub (List.replicate 49 0) 100 (by decide)).2 rfl⟩

/-- C3 (counterexample): a concrete ciphertext accepted by the code's decrypt
layout (IV, then 32-byte MAC, then body) that the claimed layout (IV, then
body, then trailing 32-byte mac) rejects with INVALID_MAC: the code does not
split its input as IV | body | trailing mac. -/
theorem c3_counterexample :
    security1_crypto_decrypt_internal aesStub key0 c3Bytes 3 = .ok [1, 2, 3] ∧
    decryptSpecTrailingMac aesStub key0 c3Bytes 3 = .error .invalidMac :=
  ⟨rfl, rfl⟩

/-- C3 (amended): `security1_crypto_decrypt_internal` splits its input into IV
(first 16 bytes), then a 32-byte mac, then the body; it recomputes HMAC-SHA256
over IV and body with the session key and returns INVALID_MAC exactly when the
stored mac differs from the recomputed one (producing no plaintext); in
particular, replacing the mac field of a valid ciphertext by any different
32-byte value — for example flipping one of its bits — yields INVALID_MAC. -/
theorem c3_mac_verification
    (aes : List Nat → List Nat → List Nat → List Nat)
    (key C : List Nat) (cap : Nat)
    (hlen : 48 < C.length) (hcap : C.length - 48 ≤ cap) :
    (security1_crypto_decrypt_internal aes key C cap = .error .invalidMac ↔
      (C.drop 16).take 32 ≠ hmacSha256 key (C.take 16 ++ C.drop 48)) ∧
    (∀ mac2 : List Nat, mac2.length = 32 → mac2 ≠ (C.drop 16).take 32 →
      (C.drop 16).take 32 = hmacSha256 key (C.take 16 ++ C.drop 48) →
      security1_crypto_decrypt_internal aes key
        (C.take 16 ++ mac2 ++ C.drop 48) cap = .error .invalidMac) := by
  have hlen16 : (C.take 16).length = 16 := by
    rw [List.length_take]; omega
  have hcore : ∀ D : List Nat, 48 < D.length → D.length - 48 ≤ cap →
      (security1_crypto_decrypt_internal aes key D cap = .error .invalidMac ↔
        (D.drop 16).take 32 ≠ hmacSha256 key (D.take 16 ++ D.drop 48)) := by
    intro D hD hDcap
    unfold security1_crypto_decrypt_internal
    rw [if_neg (by omega)]
    simp only [List.length_drop]
    rw [if_neg (by omega)]
    by_cases hm : (D.drop 16).take 32 ≠ hmacSha256 key (D.take 16 ++ D.drop 48)
    · rw [if_pos hm]
      exact ⟨fun _ => hm, fun _ => rfl⟩
    · rw [if_neg hm]
      exact iff_of_false (by simp) hm
  refine ⟨hcore C hlen hcap, ?_⟩
  intro mac2 hm2 hne hvalid
  have hA : C.take 16 ++ mac2 ++ C.drop 48 =
      C.take 16 ++ (mac2 ++ C.drop 48) := List.append_assoc _ _ _
  have hlen48 : (C.take 16 ++ mac2).length = 48 := by
    rw [List.length_append, hlen16, hm2]
  have hlenD : (C.take 16 ++ mac2 ++ C.drop 48).length = C.length := by
    rw [List.length_append, hlen48, List.length_drop]; omega
  have htake : (C.take 16 ++ mac2 ++ C.drop 48).take 16 = C.take 16 := by
    rw [hA]; exact List.take_left' hlen16
  have hdrop48 : (C.take 16 ++ mac2 ++ C.drop 48).drop 48 = C.drop 48 :=
    List.drop_left' hlen48
  have hmacfield : ((C.take 16 ++ mac2 ++ C.drop 48).drop 16).take 32 = mac2 := by
    rw [hA, List.drop_left' hlen16]
    exact List.take_left' hm2
  rw [hcore (C.take 16 ++ mac2 ++ C.drop 48) (by omega) (by omega)]
  rw [hmacfield, htake, hdrop48]
  rw [← hvalid]
  exact hne

/-- C3 (amended) witness: replacing the first mac byte of the valid ciphertext
`c3Bytes` by 204 makes decryption fail with INVALID_MAC. -/
theorem c3_mac_verification_witness :
    security1_crypto_decrypt_internal aesStub key0
      (c3Bytes.take 16 ++ (204 :: macGood.drop 1) ++ c3Bytes.drop 48) 3 =
      .error .invalidMac :=
  (c3_mac_verification aesStub key0 c3Bytes 3 (by decide) (by decide)).2
    (204 :: macGood.drop 1) (by decide) (by decide) rfl

/-- Helper: with no recovery callback registered, executing any strategy from
RESET_STATE upward fails and only stamps the recovery timestamp; in particular
the consecutive-error counter is not reset. -/
theorem execute_recovery_no_callback (now : Nat) :
    ∀ (fuel : Nat) (reg : ComponentReg) (strategy : Nat),
      reg.recovery_callback = none → 2 ≤ strategy →
      execute_recovery now reg strategy fuel =
        ({ reg with last_recovery_timestamp_ms := now }, false) := by
  intro fuel
  induction fuel with
  | zero => intro reg strategy hcb hs; rfl
  | succ k ih =>
    intro reg strategy hcb hs
    unfold execute_recovery
    have hcb1 : reg.recovery_callback.getD false = false := by rw [hcb]; rfl
    have hcustom : (strategy = 6 && reg.recovery_callback.getD false) = false := by
      rw [hcb1, Bool.and_false]
    rw [if_neg (by rw [hcustom]; exact Bool.false_ne_true)]
    have hres : (if strategy = 1 then true
        else if strategy = 2 ∨ strategy = 3 ∨ strategy = 4 then
          reg.recovery_callback.getD false
        else false) = false := by
      rw [if_neg (by omega)]
      by_cases h234 : strategy = 2 ∨ strategy = 3 ∨ strategy = 4
      · rw [if_pos h234, hcb1]
      · rw [if_neg h234]
    rw [if_neg (by rw [hres]; exact Bool.false_ne_true)]
    by_cases hesc : reg.recovery_config.escalate_on_failure = true ∧
        strategy ≠ ERROR_RECOVERY_SYSTEM_RESTART ∧
        strategy + 1 < ERROR_RECOVERY_SYSTEM_RESTART
    · rw [if_pos hesc]
      exact ih { reg with last_recovery_timestamp_ms := now } (strategy + 1) hcb
        (by omega)
    · rw [if_neg hesc]

/-- Helper: one report on a component without a recovery callback, whose
applicable default strategy is RESET_STATE, always increments the
consecutive-error counter by one and preserves registration, configuration
and callback (recovery, when attempted, fails and resets nothing). -/
theorem report_step_no_callback (now : Nat) (reg : ComponentReg)
    (category severity : Nat)
    (hcb : reg.recovery_callback = none)
    (hstrat : get_default_recovery_strategy category severity = 2) :
    (error_manager_report_step now reg category severity).1.registered =
      reg.registered ∧
    (error_manager_report_step now reg category severity).1.recovery_config =
      reg.recovery_config ∧
    (error_manager_report_step now reg category severity).1.recovery_callback =
      reg.recovery_callback ∧
    (error_manager_report_step now reg category severity).1.consecutive_errors =
      reg.consecutive_errors + 1 := by
  simp only [error_manager_report_step]
  by_cases hs : should_attempt_recovery
      { reg with consecutive_errors := reg.consecutive_errors + 1 }
      severity now = true
  · rw [if_pos hs, hstrat]
    rw [execute_recovery_no_callback now 6
      { reg with consecutive_errors := reg.consecutive_errors + 1 } 2 hcb
      (Nat.le_refl 2)]
    exact ⟨rfl, rfl, rfl, rfl⟩
  · rw [if_neg hs]
    exact ⟨rfl, rfl, rfl, rfl⟩

/-- Helper: a run of such reports adds its length to the consecutive-error
counter and preserves registration, configuration and callback. -/
theorem reportMany_no_callback (category severity : Nat)
    (hstrat : get_default_recovery_strategy category severity = 2) :
    ∀ (ts : List Nat) (reg : ComponentReg),
      reg.recovery_callback = none →
      (reportMany category severity reg ts).registered = reg.registered ∧
      (reportMany category severity reg ts).recovery_config =
        reg.recovery_config ∧
      (reportMany category severity reg ts).recovery_callback = none ∧
      (reportMany category severity reg ts).consecutive_errors =
        reg.consecutive_errors + ts.length := by
  intro ts
  induction ts with
  | nil => intro reg hcb; exact ⟨rfl, rfl, hcb, rfl⟩
  | cons t ts ih =>
    intro reg hcb
    have hstep := report_step_no_callback t reg category severity hcb hstrat
    have hrec := ih (error_manager_report_step t reg category severity).1
      (by rw [hstep.2.2.1, hcb])
    refine ⟨?_, ?_, ?_, ?_⟩
    · rw [reportMany, hrec.1, hstep.1]
    · rw [reportMany, hrec.2.1, hstep.2.1]
    · rw [reportMany]; exact hrec.2.2.1
    · rw [reportMany, hrec.2.2.2, hstep.2.2.2, List.length_cons]; omega

/-- C6: the recovery decision of `error_manager_report`.  (1) On a registered
component with auto-recovery enabled, a report of severity CRITICAL or worse
always attempts recovery.  (2) A sub-critical report attempts recovery only if
the component's consecutive-error count is below `max_consecutive_errors` and
the time since its last recovery attempt is at least `recovery_cooldown_ms`.
(3) For a component with `max_consecutive_errors = k`, no callback, and a
sub-critical category whose default strategy is RESET_STATE, after `k`
consecutive sub-critical reports the `(k+1)`-th report skips recovery. -/
theorem c6_recovery_decision :
    (∀ (reg : ComponentReg) (category severity now : Nat),
      reg.registered = true →
      reg.recovery_config.auto_recovery_enabled = true →
      ERROR_SEVERITY_CRITICAL ≤ severity →
      (error_manager_report_step now reg category severity).2 = true) ∧
    (∀ (reg : ComponentReg) (category severity now : Nat),
      severity < ERROR_SEVERITY_CRITICAL →
      (error_manager_report_step now reg category severity).2 = true →
      reg.consecutive_errors < reg.recovery_config.max_consecutive_errors ∧
      reg.recovery_config.recovery_cooldown_ms ≤
        sub32 now reg.last_recovery_timestamp_ms) ∧
    (∀ (k : Nat) (reg : ComponentReg) (category severity : Nat)
       (ts : List Nat) (now : Nat),
      reg.recovery_callback = none →
      reg.recovery_config.max_consecutive_errors = k →
      reg.consecutive_errors = 0 →
      severity < ERROR_SEVERITY_CRITICAL →
      get_default_recovery_strategy category severity = 2 →
      ts.length = k →
      (error_manager_report_step now (reportMany category severity reg ts)
        category severity).2 = false) := by
  refine ⟨?_, ?_, ?_⟩
  · intro reg category severity now hreg hauto hsev
    have hs : should_attempt_recovery
        { reg with consecutive_errors := reg.consecutive_errors + 1 }
        severity now = true := by
      unfold should_attempt_recovery
      rw [if_neg (by simp [hreg, hauto])]
      rw [if_pos hsev]
    simp only [error_manager_report_step]
    rw [if_pos hs]
  · intro reg category severity now hsev hatt
    simp only [error_manager_report_step] at hatt
    by_cases hs : should_attempt_recovery
        { reg with consecutive_errors := reg.consecutive_errors + 1 }
        severity now = true
    · unfold should_attempt_recovery at hs
      by_cases h1 : (!({ reg with consecutive_errors :=
            reg.consecutive_errors + 1 } : ComponentReg).registered ||
          !({ reg with consecutive_errors :=
            reg.consecutive_errors + 1 } : ComponentReg).recovery_config.auto_recovery_enabled) = true
      · rw [if_pos h1] at hs; cases hs
      · rw [if_neg h1] at hs
        rw [if_neg (by omega : ¬ ERROR_SEVERITY_CRITICAL ≤ severity)] at hs
        by_cases h2 : ({ reg with consecutive_errors :=
              reg.consecutive_errors + 1 } : ComponentReg).consecutive_errors ≥
            ({ reg with consecutive_errors :=
              reg.consecutive_errors + 1 } : ComponentReg).recovery_config.max_consecutive_errors
        · rw [if_pos h2] at hs; cases hs
        · rw [if_neg h2] at hs
          by_cases h3 : sub32 now ({ reg with consecutive_errors :=
                reg.consecutive_errors + 1 } : ComponentReg).last_recovery_timestamp_ms <
              ({ reg with consecutive_errors :=
                reg.consecutive_errors + 1 } : ComponentReg).recovery_config.recovery_cooldown_ms
          · rw [if_pos h3] at hs; cases hs
          · simp only at h2 h3
            exact ⟨by omega, by omega⟩
    · rw [if_neg hs] at hatt; cases hatt
  · intro k reg category severity ts now hcb hmax h0 hsev hstrat hts
    have hfacts := reportMany_no_callback category severity hstrat ts reg hcb
    have hcount : (reportMany category severity reg ts).consecutive_errors = k := by
      rw [hfacts.2.2.2, h0, hts]; omega
    have hmax2 : (reportMany category severity reg ts).recovery_config.max_consecutive_errors = k := by
      rw [hfacts.2.1, hmax]
    simp only [error_manager_report_step]
    rw [if_neg ?hcond]
    case hcond =>
      unfold should_attempt_recovery
      by_cases h1 : (!({ reportMany category severity reg ts with
            consecutive_errors := (reportMany category severity reg ts).consecutive_errors + 1 } : ComponentReg).registered ||
          !({ reportMany category severity reg ts with
            consecutive_errors := (reportMany category severity reg ts).consecutive_errors + 1 } : ComponentReg).recovery_config.auto_recovery_enabled) = true
      · rw [if_pos h1]; exact Bool.false_ne_true
      · rw [if_neg h1]
        rw [if_neg (by omega : ¬ ERROR_SEVERITY_CRITICAL ≤ severity)]
        rw [if_pos ?hge]
        case hge => simp only; omega
        exact Bool.false_ne_true

/-- C6 witness: a CRITICAL report on a fresh registered component attempts
recovery; a sub-critical attempt implies the counter and cooldown bounds; and
with `max_consecutive_errors = 2`, after 2 sub-critical VALIDATION reports the
3rd report skips recovery. -/
theorem c6_recovery_decision_witness :
    (error_manager_report_step 0 (regFresh 5 10000) 1 3).2 = true ∧
    ((regFresh 5 10000).consecutive_errors <
        (regFresh 5 10000).recovery_config.max_consecutive_errors ∧
      (regFresh 5 10000).recovery_config.recovery_cooldown_ms ≤
        sub32 20000 (regFresh 5 10000).last_recovery_timestamp_ms) ∧
    (error_manager_report_step 50000
      (reportMany 8 2 (regFresh 2 10000) [100, 200]) 8 2).2 = false := by
  refine ⟨?_, ?_, ?_⟩
  · exact c6_recovery_decision.1 (regFresh 5 10000) 1 3 0 rfl rfl (by decide)
  · exact c6_recovery_decision.2.1 (regFresh 5 10000) 8 2 20000 (by decide)
      (by decide)
  · exact c6_recovery_decision.2.2 2 (regFresh 2 10000) 8 2 [100, 200] 50000
      rfl rfl rfl (by decide) (by decide) rfl

/-- Helper: masked payload total of the empty bitmap. -/
theorem sizeSum_zero (e s n : Nat) : sizeSum e s n 0 = 0 := by
  simp [sizeSum]

/-- Helper: adding a fresh bit adds that piece to the masked payload total. -/
theorem sizeSum_union (e s n m j : Nat) (hj : j < n)
    (hbit : m.testBit j = false) :
    sizeSum e s n (m ||| 2 ^ j) = sizeSum e s n m + pieceSize e s j := by
  unfold sizeSum
  have hmem : j ∈ Finset.range n := Finset.mem_range.mpr hj
  rw [← Finset.sum_erase_add _ _ hmem, ← Finset.sum_erase_add _ _ hmem]
  have herase : ∀ i ∈ (Finset.range n).erase j,
      (if (m ||| 2 ^ j).testBit i then pieceSize e s i else 0) =
      (if m.testBit i then pieceSize e s i else 0) := by
    intro i hi
    have hne : j ≠ i := fun h => (Finset.mem_erase.mp hi).1 h.symm
    rw [Nat.testBit_or, Nat.testBit_two_pow_of_ne hne, Bool.or_false]
  rw [Finset.sum_congr rfl herase]
  rw [Nat.testBit_or, Nat.testBit_two_pow_self, Bool.or_true, hbit]
  simp

/-- Helper: the pieces of an `s`-byte frame over `n` chunks of `e` bytes sum
to `min s (n*e)`. -/
theorem sum_pieceSize (e s : Nat) :
    ∀ n, (∑ i ∈ Finset.range n, pieceSize e s i) = min s (n * e) := by
  intro n
  induction n with
  | zero => simp
  | succ k ih =>
    rw [Finset.sum_range_succ, ih]
    unfold pieceSize
    have hmul : (k + 1) * e = k * e + e := by ring
    rw [hmul]
    omega

/-- Helper: with every bit below `n` set, the masked payload total is the full
frame size. -/
theorem sizeSum_full (e s n : Nat) (hfit : s ≤ n * e) :
    sizeSum e s n (2 ^ n - 1) = s := by
  unfold sizeSum
  have hall : ∀ i ∈ Finset.range n,
      (if (2 ^ n - 1).testBit i then pieceSize e s i else 0) = pieceSize e s i := by
    intro i hi
    rw [Nat.testBit_two_pow_sub_one]
    simp [Finset.mem_range.mp hi]
  rw [Finset.sum_congr rfl hall, sum_pieceSize]
  omega

/-- Helper: membership test through the chunk-order bitmap. -/
theorem testBit_chunkMask (i : Nat) :
    ∀ l : List Nat, (chunkMask l).testBit i = true ↔ i ∈ l := by
  intro l
  induction l with
  | nil => simp [chunkMask]
  | cons j js ih =>
    rw [chunkMask, Nat.testBit_or]
    simp only [Bool.or_eq_true, ih, List.mem_cons, Nat.testBit_two_pow]
    constructor
    · rintro (h | h)
      · exact Or.inl (Eq.symm (of_decide_eq_true h))
      · exact Or.inr h
    · rintro (h | h)
      · exact Or.inl (decide_eq_true h.symm)
      · exact Or.inr h

/-- Helper: a number below `2^n` from bitwise bounds. -/
theorem lt_two_pow_of_high_bits_false (m n : Nat)
    (h : ∀ i, n ≤ i → m.testBit i = false) : m < 2 ^ n := by
  by_contra hge
  obtain ⟨i, hi, hbit⟩ := Nat.ge_two_pow_implies_high_bit_true (Nat.le_of_not_lt hge)
  rw [h i hi] at hbit
  cases hbit

/-- Helper: a bitmap over indices below `n` stays below `2^n`. -/
theorem chunkMask_lt (n : Nat) :
    ∀ l : List Nat, (∀ j ∈ l, j < n) → chunkMask l < 2 ^ n := by
  intro l hl
  refine lt_two_pow_of_high_bits_false _ _ (fun i hi => ?_)
  by_cases hb : (chunkMask l).testBit i = true
  · exact absurd (hl i ((testBit_chunkMask i l).mp hb)) (by omega)
  · exact Bool.not_eq_true _ |>.mp hb

/-- Helper: a bit already present absorbs into the mask. -/
theorem lor_eq_self_of_testBit (m j : Nat) (h : m.testBit j = true) :
    m ||| 2 ^ j = m := by
  refine Nat.eq_of_testBit_eq (fun i => ?_)
  rw [Nat.testBit_or, Nat.testBit_two_pow]
  by_cases hij : j = i
  · subst hij; simp [h]
  · simp [hij]

/-- Helper: the union of two bitmaps below `2^n` stays below `2^n`. -/
theorem lor_lt_two_pow (a b n : Nat) (ha : a < 2 ^ n) (hb : b < 2 ^ n) :
    a ||| b < 2 ^ n := by
  refine lt_two_pow_of_high_bits_false _ _ (fun i hi => ?_)
  rw [Nat.testBit_or]
  rw [Nat.testBit_lt_two_pow (Nat.lt_of_lt_of_le ha (Nat.pow_le_pow_right (by omega) hi))]
  rw [Nat.testBit_lt_two_pow (Nat.lt_of_lt_of_le hb (Nat.pow_le_pow_right (by omega) hi))]
  rfl

/-- Helper: a bitmap over indices below `n` is full exactly when the index
list covers `0..n-1`. -/
theorem chunkMask_full_iff (n : Nat) (l : List Nat) (hl : ∀ j ∈ l, j < n) :
    chunkMask l = 2 ^ n - 1 ↔ covers n l := by
  constructor
  · intro h i hi
    have : (chunkMask l).testBit i = true := by
      rw [h, Nat.testBit_two_pow_sub_one]; simp [hi]
    exact (testBit_chunkMask i l).mp this
  · intro hcov
    refine Nat.eq_of_testBit_eq (fun i => ?_)
    rw [Nat.testBit_two_pow_sub_one]
    by_cases hi : i < n
    · simp only [hi, decide_True]
      exact (testBit_chunkMask i l).mpr (hcov i hi)
    · simp only [hi, decide_False]
      by_cases hb : (chunkMask l).testBit i = true
      · exact absurd (hl i ((testBit_chunkMask i l).mp hb)) hi
      · exact Bool.not_eq_true _ |>.mp hb

/-- Helper: an in-bounds write preserves the buffer length. -/
theorem writeAt_length (buf src : List Nat) (off : Nat)
    (h : off + src.length ≤ buf.length) :
    (writeAt buf off src).length = buf.length := by
  simp [writeAt, List.length_take, List.length_drop]
  omega

/-- Helper: the written slice reads back as the source. -/
theorem writeAt_slice_self (buf src : List Nat) (off : Nat)
    (h : off + src.length ≤ buf.length) :
    ((writeAt buf off src).drop off).take src.length = src := by
  unfold writeAt
  have htl : (buf.take off).length = off := by
    rw [List.length_take]; omega
  rw [List.append_assoc, List.drop_left' htl, List.take_left' rfl]

/-- Helper: a write leaves the prefix before it untouched. -/
theorem writeAt_take_before (buf src : List Nat) (off k : Nat)
    (hk : k ≤ off) (h : off ≤ buf.length) :
    (writeAt buf off src).take k = buf.take k := by
  unfold writeAt
  have htl : (buf.take off).length = off := by
    rw [List.length_take]; omega
  rw [List.take_append_of_le_length (by rw [List.length_append, htl]; omega)]
  rw [List.take_append_of_le_length (by omega)]
  rw [List.take_take, Nat.min_eq_left hk]

/-- Helper: a write leaves everything from the end of the written range on
untouched. -/
theorem writeAt_drop_after (buf src : List Nat) (off k : Nat)
    (hk : off + src.length ≤ k) (h : off ≤ buf.length) :
    (writeAt buf off src).drop k = buf.drop k := by
  unfold writeAt
  have htl : (buf.take off ++ src).length = off + src.length := by
    rw [List.length_append, List.length_take]; omega
  rw [List.drop_append_eq_append_drop]
  rw [List.drop_of_length_le (by omega), List.nil_append]
  rw [List.drop_drop, htl]
  congr 1
  omega

/-- Helper: a slice that ends before the written range is unchanged. -/
theorem writeAt_slice_before (buf src : List Nat) (off a b : Nat)
    (hab : a + b ≤ off) (h : off ≤ buf.length) :
    ((writeAt buf off src).drop a).take b = (buf.drop a).take b := by
  rw [List.take_drop, List.take_drop]
  congr 1
  calc (writeAt buf off src).take (a + b)
      = ((writeAt buf off src).take off).take (a + b) := by
        rw [List.take_take, Nat.min_eq_left hab]
    _ = (buf.take off).take (a + b) := by
        rw [writeAt_take_before buf src off off (Nat.le_refl off) h]
    _ = buf.take (a + b) := by
        rw [List.take_take, Nat.min_eq_left hab]

/-- Helper: a slice that starts after the written range is unchanged. -/
theorem writeAt_slice_after (buf src : List Nat) (off a b : Nat)
    (ha : off + src.length ≤ a) (h : off ≤ buf.length) :
    ((writeAt buf off src).drop a).take b = (buf.drop a).take b := by
  rw [writeAt_drop_after buf src off a ha h]

/-- Helper: the payload slice of chunk `i` has exactly `pieceSize` bytes. -/
theorem mkChunk_payload_length (e s i : Nat) (data : List Nat) (hs : data.length = s) :
    ((data.drop (i * e)).take (pieceSize e s i)).length = pieceSize e s i := by
  rw [List.length_take, List.length_drop, hs]
  unfold pieceSize
  omega

/-- Helper: total length of an emitted chunk. -/
theorem mkChunk_length (cfg : ChunkConfig) (fid n i : Nat) (data : List Nat) :
    (mkChunkC cfg fid n data i).length =
      7 + pieceSize (effectiveChunkSize cfg) data.length i := by
  unfold mkChunkC
  rw [List.length_append,
      mkChunk_payload_length (effectiveChunkSize cfg) data.length i data rfl]
  rfl

/-- Helper: the payload of an emitted chunk. -/
theorem mkChunk_payload (cfg : ChunkConfig) (fid n i : Nat) (data : List Nat) :
    (mkChunkC cfg fid n data i).drop 7 =
      (data.drop (i * effectiveChunkSize cfg)).take
        (pieceSize (effectiveChunkSize cfg) data.length i) := by
  unfold mkChunkC
  exact List.drop_left' rfl

/-- Helper: parsing an emitted chunk recovers its header fields. -/
theorem parse_mkChunk (cfg : ChunkConfig) (fid n i : Nat) (data : List Nat)
    (hms : cfg.max_chunk_size < 65536) (hfid : fid < 65536)
    (hi : i < n) (hn8 : n ≤ 8) :
    parseHeader (mkChunkC cfg fid n data i) =
      { flags := if i = n - 1 then CHUNK_FLAG_CHUNKED ||| CHUNK_FLAG_FINAL
                 else CHUNK_FLAG_CHUNKED ||| CHUNK_FLAG_MORE,
        chunk_idx := i, total_chunks := n, frame_id := fid,
        chunk_size := pieceSize (effectiveChunkSize cfg) data.length i } := by
  have hflag : (if i = n - 1 then CHUNK_FLAG_CHUNKED ||| CHUNK_FLAG_FINAL
      else CHUNK_FLAG_CHUNKED ||| CHUNK_FLAG_MORE) < 256 := by
    by_cases h : i = n - 1 <;> simp [h, CHUNK_FLAG_CHUNKED, CHUNK_FLAG_FINAL, CHUNK_FLAG_MORE]
  have hple : pieceSize (effectiveChunkSize cfg) data.length i ≤
      effectiveChunkSize cfg := Nat.min_le_right _ _
  have he : effectiveChunkSize cfg < 65536 := by
    unfold effectiveChunkSize; omega
  have hp : pieceSize (effectiveChunkSize cfg) data.length i < 65536 := by omega
  unfold mkChunkC serializeHeader parseHeader
  simp only [List.cons_append, List.nil_append, List.getD]
  simp only [List.get?_cons_zero, List.get?_cons_succ, Option.getD_some]
  congr 1
  · exact Nat.mod_eq_of_lt hflag
  · exact Nat.mod_eq_of_lt (by omega)
  · exact Nat.mod_eq_of_lt (by omega)
  · rw [Nat.mod_eq_of_lt (show fid / 256 < 256 by omega)]
    exact Nat.mod_add_div fid 256
  · rw [Nat.mod_eq_of_lt (show pieceSize (effectiveChunkSize cfg) data.length i / 256 < 256 by omega)]
    exact Nat.mod_add_div _ 256

/-- Helper: no active context is found in the freshly initialized array. -/
theorem findCtx_active_initial (cfg : ChunkConfig) (fid : Nat) :
    findCtx (fun c => c.active && c.frame_id == fid) (initialContexts cfg) = none := by
  unfold initialContexts
  induction cfg.max_concurrent_frames with
  | zero => rfl
  | succ k ih => rw [List.replicate_succ, findCtx, if_neg (by simp [blankCtx])]
                 rw [ih]

/-- Helper: the first free slot of the freshly initialized array is slot 0. -/
theorem findCtx_free_initial (cfg : ChunkConfig)
    (hcap : 1 ≤ cfg.max_concurrent_frames) :
    findCtx (fun c => !c.active) (initialContexts cfg) = some (0, blankCtx) := by
  unfold initialContexts
  cases h : cfg.max_concurrent_frames with
  | zero => omega
  | succ k =>
    rw [List.replicate_succ, findCtx, if_pos (by simp [blankCtx])]

/-- Helper: an active context stored at slot 0 is found at slot 0. -/
theorem findCtx_active_set (cfg : ChunkConfig) (fid : Nat) (ctx : RCtx)
    (hcap : 1 ≤ cfg.max_concurrent_frames)
    (hact : ctx.active = true) (hfid : ctx.frame_id = fid) :
    findCtx (fun c => c.active && c.frame_id == fid)
      (setAt (initialContexts cfg) 0 ctx) = some (0, ctx) := by
  unfold initialContexts
  cases h : cfg.max_concurrent_frames with
  | zero => omega
  | succ k =>
    rw [List.replicate_succ]
    simp only [setAt]
    rw [findCtx, if_pos (by simp [hact, hfid])]

/-- Helper: freeing slot 0 of the array returns it to its initial state. -/
theorem setAt_blank_initial (cfg : ChunkConfig)
    (hcap : 1 ≤ cfg.max_concurrent_frames) :
    setAt (initialContexts cfg) 0 blankCtx = initialContexts cfg := by
  unfold initialContexts
  cases h : cfg.max_concurrent_frames with
  | zero => omega
  | succ k => rw [List.replicate_succ]; rfl

/-- Helper: once every slice of the buffer matches the original data and
`current = data.length`, the final reassembly loop reproduces the data and
reports its exact size. -/
theorem assemble_full (e n : Nat) (data buf : List Nat)
    (he : 1 ≤ e)
    (hlow : (n - 1) * e < data.length)
    (hfit2 : data.length ≤ n * e)
    (hsl : ∀ i, i < n →
      (buf.drop (i * e)).take (pieceSize e data.length i) =
      (data.drop (i * e)).take (pieceSize e data.length i)) :
    ∀ k i, k + i = n → 1 ≤ k →
      assembleLoop e n data.length buf k i (i * e) = (data.drop (i * e), data.length) := by
  intro k
  induction k with
  | zero => omega
  | succ k ih =>
    intro i hki hk1
    rw [assembleLoop]
    cases Nat.eq_zero_or_pos k with
    | inl hk0 =>
      subst hk0
      have hi : i = n - 1 := by omega
      have hile : i * e < data.length := by rw [hi]; exact hlow
      have hie1 : (i + 1) * e = n * e := by rw [show i + 1 = n by omega]
      have h2 : i * e + e = (i + 1) * e := by ring
      have hpiece : pieceSize e data.length i = data.length - i * e := by
        unfold pieceSize
        omega
      have hslice := hsl i (by omega)
      rw [hpiece] at hslice
      have hfull : (data.drop (i * e)).take (data.length - i * e) = data.drop (i * e) :=
        List.take_of_length_le (by rw [List.length_drop])
      have hacc : i * e + (data.length - i * e) = data.length := by omega
      rw [assembleLoop]
      rw [if_pos hi]
      rw [hslice, hfull, List.append_nil, hacc]
    | inr hkpos =>
      have hine : i ≠ n - 1 := by omega
      rw [if_neg hine]
      have hpiece : pieceSize e data.length i = e := by
        unfold pieceSize
        have h1 : (i + 1) * e ≤ (n - 1) * e := Nat.mul_le_mul_right e (by omega)
        have h2 : i * e + e = (i + 1) * e := by ring
        omega
      have hslice := hsl i (by omega)
      rw [hpiece] at hslice
      have hrec := ih (i + 1) (by omega) hkpos
      have hoff : i * e + e = (i + 1) * e := by ring
      rw [hoff, hrec]
      rw [hslice]
      have hjoin : (data.drop (i * e)).take e ++ data.drop ((i + 1) * e) =
          data.drop (i * e) := by
        rw [← hoff, ← List.drop_drop]
        exact List.take_append_drop e (data.drop (i * e))
      simp only [hjoin]

/-- Helper: behavior of the located-context phase of `chunk_manager_process`
on the chunk of index `j`, as a function of the invariant bitmap `m`:
a set bit reports a duplicate and changes nothing; a fresh bit is written,
and either completes the frame — delivering exactly the original data and its
size, freeing the slot — or re-establishes the invariant with bit `j` added. -/
theorem processFound_step (cfg : ChunkConfig) (fid n : Nat) (data : List Nat)
    (st : List RCtx) (slot m j f : Nat) (ctx : RCtx)
    (he : 1 ≤ effectiveChunkSize cfg)
    (hn1 : 1 ≤ n) (hn8 : n ≤ 8)
    (hlow : (n - 1) * effectiveChunkSize cfg < data.length)
    (hfit2 : data.length ≤ n * effectiveChunkSize cfg)
    (hinv : CtxInv cfg fid n data m ctx)
    (hj : j < n) :
    (m.testBit j = true →
      processFound cfg st slot ctx
        { flags := f, chunk_idx := j, total_chunks := n, frame_id := fid,
          chunk_size := pieceSize (effectiveChunkSize cfg) data.length j }
        ((data.drop (j * effectiveChunkSize cfg)).take
          (pieceSize (effectiveChunkSize cfg) data.length j)) =
        .ok (setAt st slot ctx,
          { complete_frame := none, frame_size := 0, frame_id := fid,
            is_complete := false, is_duplicate := true })) ∧
    (m.testBit j = false → m ||| 2 ^ j ≠ 2 ^ n - 1 →
      ∃ ctx1,
        processFound cfg st slot ctx
          { flags := f, chunk_idx := j, total_chunks := n, frame_id := fid,
            chunk_size := pieceSize (effectiveChunkSize cfg) data.length j }
          ((data.drop (j * effectiveChunkSize cfg)).take
            (pieceSize (effectiveChunkSize cfg) data.length j)) =
          .ok (setAt st slot ctx1,
            { complete_frame := none, frame_size := 0, frame_id := fid,
              is_complete := false, is_duplicate := false }) ∧
        CtxInv cfg fid n data (m ||| 2 ^ j) ctx1) ∧
    (m.testBit j = false → m ||| 2 ^ j = 2 ^ n - 1 →
      processFound cfg st slot ctx
        { flags := f, chunk_idx := j, total_chunks := n, frame_id := fid,
          chunk_size := pieceSize (effectiveChunkSize cfg) data.length j }
        ((data.drop (j * effectiveChunkSize cfg)).take
          (pieceSize (effectiveChunkSize cfg) data.length j)) =
        .ok (setAt st slot blankCtx,
          { complete_frame := some data, frame_size := data.length,
            frame_id := fid, is_complete := true, is_duplicate := false })) := by
  obtain ⟨hact, hfidc, htot, hexp, hblen, hrec, hmlt, hcur, hsl⟩ := hinv
  have hbit256 : 2 ^ j % 256 = 2 ^ j :=
    Nat.mod_eq_of_lt (Nat.lt_of_lt_of_le
      (Nat.pow_lt_pow_right (by omega) (by omega)) (by norm_num : 2 ^ 8 ≤ 256))
  have hplen : ((data.drop (j * effectiveChunkSize cfg)).take
      (pieceSize (effectiveChunkSize cfg) data.length j)).length =
      pieceSize (effectiveChunkSize cfg) data.length j :=
    mkChunk_payload_length _ _ _ data rfl
  have hple : pieceSize (effectiveChunkSize cfg) data.length j ≤
      effectiveChunkSize cfg := Nat.min_le_right _ _
  have hoffle : j * effectiveChunkSize cfg +
      pieceSize (effectiveChunkSize cfg) data.length j ≤
      n * effectiveChunkSize cfg := by
    have h1 : (j + 1) * effectiveChunkSize cfg ≤ n * effectiveChunkSize cfg :=
      Nat.mul_le_mul_right _ (by omega)
    have h2 : j * effectiveChunkSize cfg + effectiveChunkSize cfg =
        (j + 1) * effectiveChunkSize cfg := by ring
    omega
  have hmask8 : (2 ^ n - 1) % 256 = 2 ^ n - 1 := by
    have : 2 ^ n ≤ 2 ^ 8 := Nat.pow_le_pow_right (by omega) hn8
    omega
  have hoffbuf : j * effectiveChunkSize cfg ≤ ctx.buffer.length := by
    rw [hblen]
    have h1 : j * effectiveChunkSize cfg ≤ n * effectiveChunkSize cfg :=
      Nat.mul_le_mul_right _ (by omega)
    omega
  have hinbuf : j * effectiveChunkSize cfg +
      ((data.drop (j * effectiveChunkSize cfg)).take
        (pieceSize (effectiveChunkSize cfg) data.length j)).length ≤
      ctx.buffer.length := by
    rw [hplen, hblen]; exact hoffle
  -- slices of the buffer after the write
  have hslw : ∀ i, i < n → (m ||| 2 ^ j).testBit i = true →
      ((writeAt ctx.buffer (j * effectiveChunkSize cfg)
          ((data.drop (j * effectiveChunkSize cfg)).take
            (pieceSize (effectiveChunkSize cfg) data.length j))).drop
        (i * effectiveChunkSize cfg)).take
        (pieceSize (effectiveChunkSize cfg) data.length i) =
      (data.drop (i * effectiveChunkSize cfg)).take
        (pieceSize (effectiveChunkSize cfg) data.length i) := by
    intro i hi hbi
    by_cases hij : i = j
    · subst hij
      have := writeAt_slice_self ctx.buffer
        ((data.drop (i * effectiveChunkSize cfg)).take
          (pieceSize (effectiveChunkSize cfg) data.length i))
        (i * effectiveChunkSize cfg) hinbuf
      rw [hplen] at this
      rw [this]
    · have hbi2 : m.testBit i = true := by
        rw [Nat.testBit_or, Nat.testBit_two_pow_of_ne (fun h => hij h.symm),
            Bool.or_false] at hbi
        exact hbi
      have hold := hsl i hi hbi2
      cases Nat.lt_or_ge i j with
      | inl hlt =>
        rw [writeAt_slice_before _ _ _ _ _ ?hb hoffbuf]
        · exact hold
        case hb =>
          have hiple : pieceSize (effectiveChunkSize cfg) data.length i ≤
              effectiveChunkSize cfg := Nat.min_le_right _ _
          have h1 : (i + 1) * effectiveChunkSize cfg ≤
              j * effectiveChunkSize cfg := Nat.mul_le_mul_right _ (by omega)
          have h2 : i * effectiveChunkSize cfg + effectiveChunkSize cfg =
              (i + 1) * effectiveChunkSize cfg := by ring
          omega
      | inr hge =>
        rw [writeAt_slice_after _ _ _ _ _ ?ha hoffbuf]
        · exact hold
        case ha =>
          have h1 : (j + 1) * effectiveChunkSize cfg ≤
              i * effectiveChunkSize cfg := Nat.mul_le_mul_right _ (by omega)
          have h2 : j * effectiveChunkSize cfg + effectiveChunkSize cfg =
              (j + 1) * effectiveChunkSize cfg := by ring
          omega
  refine ⟨?_, ?_, ?_⟩
  · intro hbt
    unfold processFound
    rw [if_pos ?hc]
    case hc =>
      simp only [hbit256, hrec]
      rw [Nat.and_two_pow, hbt]
      simp
  · intro hbt hnfull
    refine ⟨{ ctx with
        buffer := writeAt ctx.buffer (j * effectiveChunkSize cfg)
          ((data.drop (j * effectiveChunkSize cfg)).take
            (pieceSize (effectiveChunkSize cfg) data.length j)),
        chunks_received := m ||| 2 ^ j,
        current_size := ctx.current_size +
          pieceSize (effectiveChunkSize cfg) data.length j }, ?_, ?_⟩
    · unfold processFound
      rw [if_neg (by simp only [hbit256, hrec]; rw [Nat.and_two_pow, hbt]; simp)]
      simp only [hbit256, hrec, hexp, htot]
      rw [if_pos hoffle]
      rw [if_neg (by simpa [hmask8] using hnfull)]
      rw [setAt_setAt]
    · refine ⟨hact, hfidc, htot, hexp, ?_, rfl, ?_, ?_, hslw⟩
      · rw [writeAt_length _ _ _ hinbuf, hblen]
      · exact lor_lt_two_pow m (2 ^ j) n hmlt
          (Nat.pow_lt_pow_right (by omega) hj)
      · rw [hcur, sizeSum_union (effectiveChunkSize cfg) data.length n m j hj hbt]
  · intro hbt hfull
    have hcurfull : ctx.current_size +
        pieceSize (effectiveChunkSize cfg) data.length j = data.length := by
      rw [hcur, ← sizeSum_union (effectiveChunkSize cfg) data.length n m j hj hbt,
          hfull, sizeSum_full _ _ _ hfit2]
    have hasm := assemble_full (effectiveChunkSize cfg) n data
      (writeAt ctx.buffer (j * effectiveChunkSize cfg)
        ((data.drop (j * effectiveChunkSize cfg)).take
          (pieceSize (effectiveChunkSize cfg) data.length j)))
      he hlow hfit2
      (fun i hi => hslw i hi (by rw [hfull, Nat.testBit_two_pow_sub_one]; simp [hi]))
      n 0 (by omega) (by omega)
    unfold processFound
    rw [if_neg (by simp only [hbit256, hrec]; rw [Nat.and_two_pow, hbt]; simp)]
    simp only [hbit256, hrec, hexp, htot]
    rw [if_pos hoffle]
    rw [if_pos (by rw [hmask8]; exact hfull)]
    rw [setAt_setAt]
    simp only [Nat.zero_mul, List.drop_zero] at hasm
    simp only [hcurfull]
    rw [hasm]

/-- Helper: processing chunk `j` against the fresh context array creates the
frame's context in slot 0 and continues with it. -/
theorem process_create_initial (cfg : ChunkConfig) (now fid n : Nat)
    (data : List Nat) (j : Nat)
    (hms : cfg.max_chunk_size < 65536) (hfid : fid < 65536)
    (hj : j < n) (hn8 : n ≤ 8) (hcap : 1 ≤ cfg.max_concurrent_frames) :
    chunk_manager_process cfg now (initialContexts cfg)
      (mkChunkC cfg fid n data j) =
    processFound cfg (initialContexts cfg) 0
      { frame_id := fid, timestamp_ms := now, chunks_received := 0,
        total_chunks := n, expected_size := n * effectiveChunkSize cfg,
        current_size := 0,
        buffer := List.replicate (n * effectiveChunkSize cfg) 0, active := true }
      { flags := if j = n - 1 then CHUNK_FLAG_CHUNKED ||| CHUNK_FLAG_FINAL
                 else CHUNK_FLAG_CHUNKED ||| CHUNK_FLAG_MORE,
        chunk_idx := j, total_chunks := n, frame_id := fid,
        chunk_size := pieceSize (effectiveChunkSize cfg) data.length j }
      ((data.drop (j * effectiveChunkSize cfg)).take
        (pieceSize (effectiveChunkSize cfg) data.length j)) := by
  unfold chunk_manager_process
  rw [if_neg (by rw [mkChunk_length]; omega)]
  simp only [parse_mkChunk cfg fid n j data hms hfid hj hn8,
             mkChunk_length, mkChunk_payload]
  rw [if_neg (by omega)]
  rw [if_neg (by simpa using Nat.not_le.mpr hj)]
  simp only [findCtx_active_initial, findCtx_free_initial cfg hcap]

/-- Helper: processing chunk `j` against the array holding the frame's
context in slot 0 locates it and continues with it. -/
theorem process_found_set (cfg : ChunkConfig) (now fid n : Nat)
    (data : List Nat) (j : Nat) (ctx : RCtx)
    (hms : cfg.max_chunk_size < 65536) (hfid : fid < 65536)
    (hj : j < n) (hn8 : n ≤ 8) (hcap : 1 ≤ cfg.max_concurrent_frames)
    (hact : ctx.active = true) (hfidc : ctx.frame_id = fid) :
    chunk_manager_process cfg now (setAt (initialContexts cfg) 0 ctx)
      (mkChunkC cfg fid n data j) =
    processFound cfg (setAt (initialContexts cfg) 0 ctx) 0 ctx
      { flags := if j = n - 1 then CHUNK_FLAG_CHUNKED ||| CHUNK_FLAG_FINAL
                 else CHUNK_FLAG_CHUNKED ||| CHUNK_FLAG_MORE,
        chunk_idx := j, total_chunks := n, frame_id := fid,
        chunk_size := pieceSize (effectiveChunkSize cfg) data.length j }
      ((data.drop (j * effectiveChunkSize cfg)).take
        (pieceSize (effectiveChunkSize cfg) data.length j)) := by
  unfold chunk_manager_process
  rw [if_neg (by rw [mkChunk_length]; omega)]
  simp only [parse_mkChunk cfg fid n j data hms hfid hj hn8,
             mkChunk_length, mkChunk_payload]
  rw [if_neg (by omega)]
  rw [if_neg (by simpa using Nat.not_le.mpr hj)]
  simp only [findCtx_active_set cfg fid ctx hcap hact hfidc]

/-- Helper: the single loop condition of `chunk_manager_send` computes exactly
the piece size. -/
theorem sendPiece_eq (e s i : Nat) :
    (if s - i * e > e then e else s - i * e) = pieceSize e s i := by
  unfold pieceSize
  rw [Nat.min_def]
  split_ifs <;> omega

/-- Helper: closed form of the `chunk_manager_send` loop, chunk by chunk. -/
theorem sendLoop_spec (cfg : ChunkConfig) (fid n : Nat) (data : List Nat)
    (he : 1 ≤ effectiveChunkSize cfg)
    (hlow : (n - 1) * effectiveChunkSize cfg < data.length) :
    ∀ k i, k + i = n →
      sendLoop cfg fid n data k i (i * effectiveChunkSize cfg) =
        (List.range k).map (fun t => mkChunkC cfg fid n data (i + t)) := by
  intro k
  induction k with
  | zero => intro i hki; rfl
  | succ k ih =>
    intro i hki
    rw [sendLoop]
    rw [List.range_succ_eq_map, List.map_cons]
    have hps := sendPiece_eq (effectiveChunkSize cfg) data.length i
    congr 1
    · rw [hps]
      rfl
    · rw [List.map_map]
      cases Nat.eq_zero_or_pos k with
      | inl hk0 =>
        subst hk0
        rfl
      | inr hkpos =>
        have hemid : data.length - i * effectiveChunkSize cfg >
            effectiveChunkSize cfg := by
          have h1 : (i + 1) * effectiveChunkSize cfg ≤
              (n - 1) * effectiveChunkSize cfg :=
            Nat.mul_le_mul_right _ (by omega)
          have h2 : i * effectiveChunkSize cfg + effectiveChunkSize cfg =
              (i + 1) * effectiveChunkSize cfg := by ring
          omega
        rw [if_pos hemid]
        have hoff : i * effectiveChunkSize cfg + effectiveChunkSize cfg =
            (i + 1) * effectiveChunkSize cfg := by ring
        rw [hoff, ih (i + 1) (by omega)]
        apply List.map_congr_left
        intro t ht
        simp only [Function.comp]
        congr 1
        omega

/-- Helper: concatenating consecutive payload slices rebuilds the data tail. -/
theorem joinSlices (e n : Nat) (data : List Nat)
    (hfit2 : data.length ≤ n * e) :
    ∀ k i, k + i = n →
      joinL ((List.range k).map (fun t =>
        (data.drop ((i + t) * e)).take (pieceSize e data.length (i + t)))) =
      data.drop (i * e) := by
  intro k
  induction k with
  | zero =>
    intro i hki
    have : data.length ≤ i * e := by
      have : i = n := by omega
      rw [this]; exact hfit2
    rw [List.drop_of_length_le this]
    rfl
  | succ k ih =>
    intro i hki
    rw [List.range_succ_eq_map, List.map_cons, List.map_map]
    have hmap : ((fun t => (data.drop ((i + t) * e)).take
        (pieceSize e data.length (i + t))) ∘ Nat.succ) =
        (fun t => (data.drop ((i + 1 + t) * e)).take
          (pieceSize e data.length (i + 1 + t))) := by
      funext t
      simp only [Function.comp]
      have hidx : i + Nat.succ t = i + 1 + t := by omega
      rw [hidx]
    rw [hmap, joinL]
    rw [ih (i + 1) (by omega)]
    have hzero : i + 0 = i := by omega
    rw [hzero]
    by_cases hsh : data.length - i * e ≤ e
    · have hpiece : pieceSize e data.length i = data.length - i * e := by
        unfold pieceSize; omega
      rw [hpiece]
      have hfull : (data.drop (i * e)).take (data.length - i * e) =
          data.drop (i * e) :=
        List.take_of_length_le (by rw [List.length_drop])
      rw [hfull]
      have hnil : data.drop ((i + 1) * e) = [] := by
        apply List.drop_of_length_le
        have h2 : i * e + e = (i + 1) * e := by ring
        omega
      rw [hnil, List.append_nil]
    · have hpiece : pieceSize e data.length i = e := by
        unfold pieceSize; omega
      rw [hpiece]
      have hoff : (i + 1) * e = i * e + e := by ring
      rw [hoff, ← List.drop_drop]
      exact List.take_append_drop e (data.drop (i * e))

/-- Helper: under the side conditions of the round trip, the chunk count is
exactly `n` and `chunk_manager_send` emits the `n` canonical chunks. -/
theorem send_ok (cfg : ChunkConfig) (fid n : Nat) (data : List Nat)
    (he : 1 ≤ effectiveChunkSize cfg)
    (hn1 : 1 ≤ n) (hn8 : n ≤ 8)
    (hlow : (n - 1) * effectiveChunkSize cfg < data.length)
    (hfit2 : data.length ≤ n * effectiveChunkSize cfg) :
    calculate_chunks_needed cfg data.length = n ∧
    chunk_manager_send cfg fid data =
      .ok ((List.range n).map (mkChunkC cfg fid n data)) := by
  have hsub : n - 1 + 1 = n := by omega
  have hbridge : (n - 1) * effectiveChunkSize cfg + effectiveChunkSize cfg =
      n * effectiveChunkSize cfg := by
    calc (n - 1) * effectiveChunkSize cfg + effectiveChunkSize cfg
        = (n - 1 + 1) * effectiveChunkSize cfg := by ring
      _ = n * effectiveChunkSize cfg := by rw [hsub]
  have hdiv : (data.length + effectiveChunkSize cfg - 1) /
      effectiveChunkSize cfg = n := by
    apply Nat.div_eq_of_lt_le
    · omega
    · have hsucc : Nat.succ n * effectiveChunkSize cfg =
          n * effectiveChunkSize cfg + effectiveChunkSize cfg :=
        Nat.succ_mul n _
      have hsucc2 : (n + 1) * effectiveChunkSize cfg =
          n * effectiveChunkSize cfg + effectiveChunkSize cfg := by ring
      omega
  have hcount : calculate_chunks_needed cfg data.length = n := by
    unfold calculate_chunks_needed
    simp only [hdiv]
    rw [Nat.mod_eq_of_lt (by omega)]
    rw [if_pos (by omega)]
  refine ⟨hcount, ?_⟩
  unfold chunk_manager_send
  simp only [hcount]
  rw [if_neg (by omega)]
  have hloop := sendLoop_spec cfg fid n data he hlow n 0 (by omega)
  rw [Nat.zero_mul] at hloop
  rw [hloop]
  congr 1
  apply List.map_congr_left
  intro t ht
  rw [Nat.zero_add]

/-- Helper: one successful step of `feedAll`. -/
theorem feedAll_cons_ok (cfg : ChunkConfig) (now : Nat) (st : List RCtx)
    (c : List Nat) (cs : List (List Nat)) (st1 : List RCtx) (r : RResult)
    (h : chunk_manager_process cfg now st c = .ok (st1, r)) :
    feedAll cfg now st (c :: cs) =
      ((feedAll cfg now st1 cs).1, .ok r :: (feedAll cfg now st1 cs).2) := by
  rw [feedAll, h]

/-- Helper: feeding the remaining chunk indices `rest` — whose bitmap first
becomes full exactly at the last one — against a context satisfying the
invariant ends with the context slot freed, exactly one completed result
carrying the original data, and every earlier result a success that is not
complete. -/
theorem feed_go (cfg : ChunkConfig) (now fid n : Nat) (data : List Nat)
    (he : 1 ≤ effectiveChunkSize cfg)
    (hms : cfg.max_chunk_size < 65536) (hfid : fid < 65536)
    (hcap : 1 ≤ cfg.max_concurrent_frames)
    (hn1 : 1 ≤ n) (hn8 : n ≤ 8)
    (hlow : (n - 1) * effectiveChunkSize cfg < data.length)
    (hfit2 : data.length ≤ n * effectiveChunkSize cfg) :
    ∀ (rest : List Nat) (m : Nat) (ctx : RCtx),
      rest ≠ [] →
      (∀ j ∈ rest, j < n) →
      CtxInv cfg fid n data m ctx →
      m ||| chunkMask rest = 2 ^ n - 1 →
      (∀ t, t < rest.length → m ||| chunkMask (rest.take t) ≠ 2 ^ n - 1) →
      ∃ mids,
        feedAll cfg now (setAt (initialContexts cfg) 0 ctx)
            (rest.map (mkChunkC cfg fid n data)) =
          (initialContexts cfg,
           mids ++ [.ok { complete_frame := some data,
                          frame_size := data.length, frame_id := fid,
                          is_complete := true, is_duplicate := false }]) ∧
        ∀ r ∈ mids, ∃ rr, r = .ok rr ∧ rr.is_complete = false := by
  intro rest
  induction rest with
  | nil => intro m ctx hne; exact absurd rfl hne
  | cons j rest ih =>
    intro m ctx _ hmem hinv hfull hproper
    have hj : j < n := hmem j (List.mem_cons_self j rest)
    obtain ⟨hdup, hmid, hcomp⟩ := processFound_step cfg fid n data
        (setAt (initialContexts cfg) 0 ctx) 0 m j
        (if j = n - 1 then CHUNK_FLAG_CHUNKED ||| CHUNK_FLAG_FINAL
         else CHUNK_FLAG_CHUNKED ||| CHUNK_FLAG_MORE) ctx
        he hn1 hn8 hlow hfit2 hinv hj
    have hproc := process_found_set cfg now fid n data j ctx hms hfid hj hn8
        hcap hinv.1 hinv.2.1
    cases rest with
    | nil =>
      have hmask1 : chunkMask [j] = 2 ^ j := by
        rw [chunkMask, chunkMask, Nat.or_zero]
      rw [hmask1] at hfull
      have hm0 := hproper 0 (by simp)
      rw [List.take_zero, chunkMask, Nat.or_zero] at hm0
      have hbit : m.testBit j = false := by
        cases hb : m.testBit j with
        | false => rfl
        | true =>
          exact absurd (by rw [← lor_eq_self_of_testBit m j hb]; exact hfull) hm0
      refine ⟨[], ?_, by simp⟩
      simp only [List.map_cons, List.map_nil]
      rw [feedAll_cons_ok cfg now _ _ _ _ _ (hproc.trans (hcomp hbit hfull))]
      rw [setAt_setAt, setAt_blank_initial cfg hcap]
      rfl
    | cons j2 rest2 =>
      by_cases hbit : m.testBit j = true
      · have habsorb : m ||| 2 ^ j = m := lor_eq_self_of_testBit m j hbit
        have hfull' : m ||| chunkMask (j2 :: rest2) = 2 ^ n - 1 := by
          rw [chunkMask, ← Nat.lor_assoc, habsorb] at hfull
          exact hfull
        have hproper' : ∀ t, t < (j2 :: rest2).length →
            m ||| chunkMask ((j2 :: rest2).take t) ≠ 2 ^ n - 1 := by
          intro t ht
          have h := hproper (t + 1) (by simp at ht ⊢; omega)
          rw [List.take_succ_cons, chunkMask, ← Nat.lor_assoc, habsorb] at h
          exact h
        obtain ⟨mids, hfeed, hmids⟩ := ih m ctx (by simp)
          (fun i hi => hmem i (List.mem_cons_of_mem j hi)) hinv hfull' hproper'
        refine ⟨.ok { complete_frame := none, frame_size := 0, frame_id := fid,
                      is_complete := false, is_duplicate := true } :: mids,
                ?_, ?_⟩
        · simp only [List.map_cons]
          rw [feedAll_cons_ok cfg now _ _ _ _ _ (hproc.trans (hdup hbit))]
          rw [setAt_setAt]
          simp only [List.map_cons] at hfeed
          rw [hfeed]
          rfl
        · intro r hr
          rcases List.mem_cons.mp hr with h | h
          · exact ⟨_, h, rfl⟩
          · exact hmids r h
      · have hbit' : m.testBit j = false := Bool.not_eq_true _ |>.mp hbit
        have hnotfull : m ||| 2 ^ j ≠ 2 ^ n - 1 := by
          have h := hproper 1 (by simp)
          rw [List.take_succ_cons, List.take_zero, chunkMask, chunkMask,
              Nat.or_zero] at h
          exact h
        obtain ⟨ctx1, hpf, hinv1⟩ := hmid hbit' hnotfull
        have hfull' : (m ||| 2 ^ j) ||| chunkMask (j2 :: rest2) = 2 ^ n - 1 := by
          rw [Nat.lor_assoc]
          rw [chunkMask] at hfull
          exact hfull
        have hproper' : ∀ t, t < (j2 :: rest2).length →
            (m ||| 2 ^ j) ||| chunkMask ((j2 :: rest2).take t) ≠ 2 ^ n - 1 := by
          intro t ht
          have h := hproper (t + 1) (by simp at ht ⊢; omega)
          rw [List.take_succ_cons, chunkMask, ← Nat.lor_assoc] at h
          exact h
        obtain ⟨mids, hfeed, hmids⟩ := ih (m ||| 2 ^ j) ctx1 (by simp)
          (fun i hi => hmem i (List.mem_cons_of_mem j hi)) hinv1 hfull' hproper'
        refine ⟨.ok { complete_frame := none, frame_size := 0, frame_id := fid,
                      is_complete := false, is_duplicate := false } :: mids,
                ?_, ?_⟩
        · simp only [List.map_cons]
          rw [feedAll_cons_ok cfg now _ _ _ _ _ (hproc.trans hpf)]
          rw [setAt_setAt]
          simp only [List.map_cons] at hfeed
          rw [hfeed]
          rfl
        · intro r hr
          rcases List.mem_cons.mp hr with h | h
          · exact ⟨_, h, rfl⟩
          · exact hmids r h

/-- Helper: indexing into the mapped range with a default. -/
theorem getD_range_map {α : Type} (f : Nat → α) (d : α) (n j : Nat)
    (hj : j < n) : ((List.range n).map f).getD j d = f j := by
  rw [List.getD_eq_getElem _ _ (by simpa using hj)]
  simp

/-- Helper: a power of two that equals the full mask forces every low bit. -/
theorem two_pow_full_mem (n j0 : Nat) (h : 2 ^ j0 = 2 ^ n - 1) :
    ∀ i, i < n → i = j0 := by
  intro i hi
  have hbit : (2 ^ n - 1).testBit i = true := by
    rw [Nat.testBit_two_pow_sub_one]
    simp [hi]
  rw [← h, Nat.testBit_two_pow] at hbit
  exact (of_decide_eq_true hbit).symm

/-- Helper: a full proper prefix of the order would make the last-minus-one
prefix covering. -/
theorem prefix_full_covers (n : Nat) (order : List Nat)
    (horder : ∀ j ∈ order, j < n) (t : Nat) (ht : t + 1 ≤ order.length - 1)
    (hfull : chunkMask (order.take (t + 1)) = 2 ^ n - 1) :
    covers n order.dropLast := by
  intro i hi
  have hmemtake : i ∈ order.take (t + 1) :=
    ((chunkMask_full_iff n (order.take (t + 1))
      (fun j hj => horder j (List.mem_of_mem_take hj))).mp hfull) i hi
  rw [List.dropLast_eq_take]
  have heq : order.take (t + 1) = (order.take (order.length - 1)).take (t + 1) := by
    rw [List.take_take, Nat.min_eq_left ht]
  rw [heq] at hmemtake
  exact List.mem_of_mem_take hmemtake

/-- C1 (amended). For data of size `s > 0` fitting in at most 8 chunks,
`chunk_manager_send` emits exactly `ceil(s/effective)` chunks whose payloads
concatenate back to the data, and feeding those chunks to
`chunk_manager_process` in any order that covers every index — duplicates
allowed — completing only at the final chunk, produces exactly one completed
result carrying the original bytes and size, every other result being a
non-complete success. -/
theorem c1_chunk_roundtrip (cfg : ChunkConfig) (now fid : Nat)
    (data : List Nat) (order : List Nat)
    (hms8 : 8 ≤ cfg.max_chunk_size) (hms : cfg.max_chunk_size < 65536)
    (hcap : 1 ≤ cfg.max_concurrent_frames) (hfid : fid < 65536)
    (hpos : 0 < data.length)
    (hfit : data.length ≤ 8 * effectiveChunkSize cfg)
    (horder : ∀ j ∈ order, j < calculate_chunks_needed cfg data.length)
    (hcov : covers (calculate_chunks_needed cfg data.length) order)
    (hlast : ¬ covers (calculate_chunks_needed cfg data.length)
      order.dropLast) :
    ∃ chunks mids,
      chunk_manager_send cfg fid data = .ok chunks ∧
      chunks.length = calculate_chunks_needed cfg data.length ∧
      joinL (chunks.map (fun c => c.drop 7)) = data ∧
      feedAll cfg now (initialContexts cfg)
          (order.map (fun j => chunks.getD j [])) =
        (initialContexts cfg,
         mids ++ [.ok { complete_frame := some data,
                        frame_size := data.length, frame_id := fid,
                        is_complete := true, is_duplicate := false }]) ∧
      ∀ r ∈ mids, ∃ rr, r = .ok rr ∧ rr.is_complete = false := by
  have he : 1 ≤ effectiveChunkSize cfg := by
    unfold effectiveChunkSize; omega
  have hepos : 0 < effectiveChunkSize cfg := he
  have hn1 : 1 ≤ (data.length + effectiveChunkSize cfg - 1) /
      effectiveChunkSize cfg := by
    rw [Nat.le_div_iff_mul_le hepos]
    omega
  have hn8 : (data.length + effectiveChunkSize cfg - 1) /
      effectiveChunkSize cfg ≤ 8 := by
    have h9 : (data.length + effectiveChunkSize cfg - 1) /
        effectiveChunkSize cfg < 9 := by
      rw [Nat.div_lt_iff_lt_mul hepos]
      omega
    omega
  set n := (data.length + effectiveChunkSize cfg - 1) /
      effectiveChunkSize cfg with hn
  have hceil : n * effectiveChunkSize cfg ≤
      data.length + effectiveChunkSize cfg - 1 :=
    (Nat.le_div_iff_mul_le hepos).mp (Nat.le_refl n)
  have hceil2 : data.length + effectiveChunkSize cfg - 1 <
      (n + 1) * effectiveChunkSize cfg :=
    (Nat.div_lt_iff_lt_mul hepos).mp (Nat.lt_succ_self n)
  have hbridge1 : (n - 1) * effectiveChunkSize cfg + effectiveChunkSize cfg =
      n * effectiveChunkSize cfg := by
    have hsub : n - 1 + 1 = n := by omega
    calc (n - 1) * effectiveChunkSize cfg + effectiveChunkSize cfg
        = (n - 1 + 1) * effectiveChunkSize cfg := by ring
      _ = n * effectiveChunkSize cfg := by rw [hsub]
  have hbridge2 : (n + 1) * effectiveChunkSize cfg =
      n * effectiveChunkSize cfg + effectiveChunkSize cfg := by ring
  have hlow : (n - 1) * effectiveChunkSize cfg < data.length := by omega
  have hfit2 : data.length ≤ n * effectiveChunkSize cfg := by omega
  obtain ⟨hcount, hsend⟩ := send_ok cfg fid n data he hn1 hn8 hlow hfit2
  rw [hcount] at horder hcov hlast
  refine ⟨(List.range n).map (mkChunkC cfg fid n data), ?_⟩
  have hlen : ((List.range n).map (mkChunkC cfg fid n data)).length =
      calculate_chunks_needed cfg data.length := by
    rw [hcount]; simp
  have hjoin : joinL (((List.range n).map (mkChunkC cfg fid n data)).map
      (fun c => c.drop 7)) = data := by
    rw [List.map_map]
    have hfun : ((fun c => List.drop 7 c) ∘ mkChunkC cfg fid n data) =
        (fun t => (data.drop ((0 + t) * effectiveChunkSize cfg)).take
          (pieceSize (effectiveChunkSize cfg) data.length (0 + t))) := by
      funext t
      simp only [Function.comp, Nat.zero_add]
      exact mkChunk_payload cfg fid n t data
    rw [hfun, joinSlices (effectiveChunkSize cfg) n data hfit2 n 0 (by omega)]
    rw [Nat.zero_mul, List.drop_zero]
  have hmapord : order.map
      (fun j => ((List.range n).map (mkChunkC cfg fid n data)).getD j []) =
      order.map (mkChunkC cfg fid n data) := by
    apply List.map_congr_left
    intro j hj
    exact getD_range_map (mkChunkC cfg fid n data) [] n j (horder j hj)
  cases horderl : order with
  | nil =>
    exact absurd (hcov 0 (by omega)) (by simp [horderl])
  | cons j0 rest =>
    subst horderl
    have hj0 : j0 < n := horder j0 (List.mem_cons_self j0 rest)
    have hcreate := process_create_initial cfg now fid n data j0 hms hfid
      hj0 hn8 hcap
    have hinv0 : CtxInv cfg fid n data 0
        { frame_id := fid, timestamp_ms := now, chunks_received := 0,
          total_chunks := n,
          expected_size := n * effectiveChunkSize cfg, current_size := 0,
          buffer := List.replicate (n * effectiveChunkSize cfg) 0,
          active := true } := by
      refine ⟨rfl, rfl, rfl, rfl, List.length_replicate _ _, rfl,
              Nat.two_pow_pos n, (sizeSum_zero _ _ _).symm, ?_⟩
      intro i hi hbit
      rw [Nat.zero_testBit] at hbit
      cases hbit
    obtain ⟨_, hmid, hcomp⟩ := processFound_step cfg fid n data
        (initialContexts cfg) 0 0 j0
        (if j0 = n - 1 then CHUNK_FLAG_CHUNKED ||| CHUNK_FLAG_FINAL
         else CHUNK_FLAG_CHUNKED ||| CHUNK_FLAG_MORE)
        { frame_id := fid, timestamp_ms := now, chunks_received := 0,
          total_chunks := n,
          expected_size := n * effectiveChunkSize cfg, current_size := 0,
          buffer := List.replicate (n * effectiveChunkSize cfg) 0,
          active := true }
        he hn1 hn8 hlow hfit2 hinv0 hj0
    have hbit0 : (0 : Nat).testBit j0 = false := Nat.zero_testBit j0
    have hmaskfull : chunkMask (j0 :: rest) = 2 ^ n - 1 :=
      (chunkMask_full_iff n (j0 :: rest) horder).mpr hcov
    by_cases hone : (0 : Nat) ||| 2 ^ j0 = 2 ^ n - 1
    · -- the very first chunk completes the frame: the order must be [j0]
      have hpow : 2 ^ j0 = 2 ^ n - 1 := by
        rw [Nat.zero_or] at hone; exact hone
      have hrestnil : rest = [] := by
        cases hrest : rest with
        | nil => rfl
        | cons j2 rest2 =>
          exfalso
          apply hlast
          rw [hrest, List.dropLast_cons_of_ne_nil (by simp)]
          intro i hi
          rw [two_pow_full_mem n j0 hpow i hi]
          exact List.mem_cons_self j0 _
      subst hrestnil
      refine ⟨[], hsend, hlen, hjoin, ?_, by simp⟩
      rw [hmapord]
      simp only [List.map_cons, List.map_nil]
      rw [feedAll_cons_ok cfg now _ _ _ _ _ (hcreate.trans (hcomp hbit0 hone))]
      rw [setAt_blank_initial cfg hcap]
      rfl
    · -- the first chunk is a strict step: rest is nonempty and feed_go runs
      obtain ⟨ctx1, hpf, hinv1⟩ := hmid hbit0 hone
      have hrestne : rest ≠ [] := by
        intro hrest
        apply hone
        rw [hrest, chunkMask, chunkMask, Nat.or_zero] at hmaskfull
        rw [Nat.zero_or]
        exact hmaskfull
      have hfull' : (0 ||| 2 ^ j0) ||| chunkMask rest = 2 ^ n - 1 := by
        rw [Nat.lor_assoc, Nat.zero_or]
        rw [chunkMask] at hmaskfull
        exact hmaskfull
      have hproper' : ∀ t, t < rest.length →
          (0 ||| 2 ^ j0) ||| chunkMask (rest.take t) ≠ 2 ^ n - 1 := by
        intro t ht hfullpre
        have hchain : chunkMask ((j0 :: rest).take (t + 1)) = 2 ^ n - 1 := by
          rw [List.take_succ_cons, chunkMask]
          rw [Nat.lor_assoc, Nat.zero_or] at hfullpre
          exact hfullpre
        exact hlast (prefix_full_covers n (j0 :: rest) horder t
          (by simp; omega) hchain)
      obtain ⟨mids, hfeed, hmids⟩ := feed_go cfg now fid n data he hms hfid
        hcap hn1 hn8 hlow hfit2 rest (0 ||| 2 ^ j0) ctx1 hrestne
        (fun i hi => horder i (List.mem_cons_of_mem j0 hi)) hinv1
        hfull' hproper'
      refine ⟨.ok { complete_frame := none, frame_size := 0, frame_id := fid,
                    is_complete := false, is_duplicate := false } :: mids,
              hsend, hlen, hjoin, ?_, ?_⟩
      · rw [hmapord]
        simp only [List.map_cons]
        rw [feedAll_cons_ok cfg now _ _ _ _ _ (hcreate.trans hpf)]
        rw [hfeed]
        rfl
      · intro r hr
        rcases List.mem_cons.mp hr with h | h
        · exact ⟨_, h, rfl⟩
        · exact hmids r h


theorem c1_chunk_roundtrip_witness :
    covers (calculate_chunks_needed cfg23 data60.length) [2, 0, 3, 1] ∧
    ¬ covers (calculate_chunks_needed cfg23 data60.length)
      ([2, 0, 3, 1] : List Nat).dropLast ∧
    ∃ chunks mids,
      chunk_manager_send cfg23 7 data60 = .ok chunks ∧
      chunks.length = calculate_chunks_needed cfg23 data60.length ∧
      joinL (chunks.map (fun c => c.drop 7)) = data60 ∧
      feedAll cfg23 0 (initialContexts cfg23)
          (([2, 0, 3, 1] : List Nat).map (fun j => chunks.getD j [])) =
        (initialContexts cfg23,
         mids ++ [.ok { complete_frame := some data60,
                        frame_size := data60.length, frame_id := 7,
                        is_complete := true, is_duplicate := false }]) ∧
      ∀ r ∈ mids, ∃ rr, r = .ok rr ∧ rr.is_complete = false :=
  ⟨by unfold covers; decide, by unfold covers; decide,
   c1_chunk_roundtrip cfg23 0 7 data60 [2, 0, 3, 1]
     (by decide) (by decide) (by decide) (by decide) (by decide) (by decide)
     (by decide) (by unfold covers; decide) (by unfold covers; decide)⟩
